import Mathlib

/-!
Shallow embedding of the `cliconf` configuration-flag library
(`src/lib.rs`): the typed flag-value model, the flag registry, the
JSON coercion, the environment-variable phase and the command-line
argument parser, together with proofs about the claims of the
specification.

Modelling conventions, mapping Rust to Lean:
* `i64`/`i128` values are `Int`; the range checks that `str::parse`
  performs are made explicit in the parsing functions.
* `f64` values are modelled as `Rat`; the textual parse of a finite
  decimal float is modelled exactly (sign, digits, fraction, exponent)
  and rounding to binary floating point is not modelled, since no
  property proved here depends on float arithmetic.
* Functions that `panic!` in Rust are modelled as `Except String`
  (an `.error` result stands for the panic).
* `HashMap<String, Flag>` is modelled as an association list with
  unique keys, `HashMap<char, String>` likewise; `get_mut` followed by
  in-place mutation becomes functional replacement of the entry.
* `serde_json::Value` is modelled by the inductive `Json`; reading a
  config file from disk and running the serde parser are out of scope,
  so `load` receives, for each path, the optional parse result
  (`none` stands for a missing, unreadable or syntactically invalid
  file, all of which `load` only warns about).
* `String::starts_with` on `"--"`/`"-"` and slicing `&arg[2..]` are
  modelled via `List.take`/`List.drop` on the string's character data.
-/

namespace Cliconf

/-- The nine value variants of `FlagValue` in `src/lib.rs`. -/
inductive FlagValue where
  | Bool (b : Bool)
  | String (s : String)
  | Int64 (n : Int)
  | Int128 (n : Int)
  | Float64 (x : Rat)
  | StringArray (v : List String)
  | Int64Array (v : List Int)
  | Int128Array (v : List Int)
  | Float64Array (v : List Rat)
deriving DecidableEq, Repr

/-- The discriminant of a `FlagValue` (`std::mem::discriminant`). -/
inductive Tag where
  | Bool | String | Int64 | Int128 | Float64
  | StringArray | Int64Array | Int128Array | Float64Array
deriving DecidableEq, Repr

/-- Discriminant of a value. -/
def FlagValue.tag : FlagValue → Tag
  | .Bool _ => .Bool
  | .String _ => .String
  | .Int64 _ => .Int64
  | .Int128 _ => .Int128
  | .Float64 _ => .Float64
  | .StringArray _ => .StringArray
  | .Int64Array _ => .Int64Array
  | .Int128Array _ => .Int128Array
  | .Float64Array _ => .Float64Array

/-- Whether a tag is one of the four array variants (the shape of the
match in `Flags::load`, phase 2, and in `Flag::append_values`). -/
def tagIsArray : Tag → Bool
  | .StringArray | .Int64Array | .Int128Array | .Float64Array => true
  | _ => false

/-- Model of `bool::from_str`: accepts exactly "true" and "false". -/
def parseBool (s : String) : Option Bool :=
  if s = "true" then some true
  else if s = "false" then some false
  else none

/-- Digit run to a natural number; `none` if any character is not an
ASCII digit.  The empty list yields `some 0` and emptiness is guarded
by the callers. -/
def digitsToNat (cs : List Char) : Option Nat :=
  cs.foldlM (fun acc c => if c.isDigit then some (acc * 10 + (c.toNat - 48)) else none) 0

/-- Signed decimal integer grammar of Rust `i64::from_str` /
`i128::from_str` before the range check: optional sign, then one or
more digits. -/
def parseIntCore (s : String) : Option Int :=
  match s.data with
  | [] => none
  | '-' :: rest => if rest = [] then none else (digitsToNat rest).map (fun n => -(n : Int))
  | '+' :: rest => if rest = [] then none else (digitsToNat rest).map (fun n => (n : Int))
  | cs => (digitsToNat cs).map (fun n => (n : Int))

def i64Min : Int := -(2 ^ 63)
def i64Max : Int := 2 ^ 63 - 1
def i128Min : Int := -(2 ^ 127)
def i128Max : Int := 2 ^ 127 - 1

/-- Model of `i64::from_str`, with its overflow check. -/
def parseI64 (s : String) : Option Int :=
  (parseIntCore s).bind (fun n => if i64Min ≤ n ∧ n ≤ i64Max then some n else none)

/-- Model of `i128::from_str`, with its overflow check. -/
def parseI128 (s : String) : Option Int :=
  (parseIntCore s).bind (fun n => if i128Min ≤ n ∧ n ≤ i128Max then some n else none)

/-- Digits after the decimal point, as a rational in `[0, 1)`. -/
def fracToRat (cs : List Char) : Option Rat :=
  (digitsToNat cs).map (fun n => (n : Rat) / ((10 : Rat) ^ cs.length))

/-- Significand of the `f64::from_str` grammar: `digits`, `digits.`,
`digits.digits` or `.digits`. -/
def parseSignificand (cs : List Char) : Option Rat :=
  match cs.splitOn '.' with
  | [intPart] =>
      if intPart = [] then none else (digitsToNat intPart).map (fun n => (n : Rat))
  | [intPart, fracPart] =>
      if intPart = [] ∧ fracPart = [] then none
      else do
        let i ← digitsToNat intPart
        let f ← fracToRat fracPart
        some ((i : Rat) + f)
  | _ => none

/-- Exponent part: optional sign then one or more digits. -/
def parseExpInt (cs : List Char) : Option Int :=
  match cs with
  | [] => none
  | '-' :: rest => if rest = [] then none else (digitsToNat rest).map (fun n => -(n : Int))
  | '+' :: rest => if rest = [] then none else (digitsToNat rest).map (fun n => (n : Int))
  | _ => (digitsToNat cs).map (fun n => (n : Int))

/-- Model of `f64::from_str` restricted to finite decimal literals, producing the
exact rational value (the special forms `inf`, `infinity` and `NaN` have
no counterpart in the `Rat` model and no claim exercises them). -/
def parseF64 (s : String) : Option Rat :=
  let cs := s.data
  let signAndRest : Rat × List Char :=
    match cs with
    | '-' :: r => (-1, r)
    | '+' :: r => (1, r)
    | r => (1, r)
  let sign := signAndRest.1
  let body := signAndRest.2
  match (body.map (fun c => if c = 'E' then 'e' else c)).splitOn 'e' with
  | [m] => (parseSignificand m).map (fun v => sign * v)
  | [m, e] => do
      let mv ← parseSignificand m
      let ev ← parseExpInt e
      if 0 ≤ ev then some (sign * mv * (10 : Rat) ^ ev.toNat)
      else some (sign * mv / (10 : Rat) ^ (-ev).toNat)
  | _ => none

/-- The `Flag` struct of `src/lib.rs`. -/
structure Flag where
  name : String
  default_value : FlagValue
  value : FlagValue
  shorthand : Option Char := none
  description : Option String := none
  env_var_delimiter : Option String := none
  exclude_from_usage : Bool := false
  is_set : Bool := false
deriving DecidableEq, Repr

/-- The flag-name pattern `^([a-z]|[0-9]|-)+$` checked by `Flag::new`. -/
def validFlagName (s : String) : Bool :=
  s.data ≠ [] && s.data.all (fun c => ('a' ≤ c && c ≤ 'z') || ('0' ≤ c && c ≤ '9') || c = '-')

/-- Model of `Flag::new`: validates the name (a panic is modelled as `.error`)
and initialises `value` to a clone of the default. -/
def Flag.new (name : String) (default_value : FlagValue) : Except String Flag :=
  if validFlagName name then
    .ok { name := name, default_value := default_value, value := default_value }
  else
    .error s!"Flag name {name} is invalid! Must be lowercase a-z with dashes only."

/-- Model of the `Flag::shorthand` builder: validates that the character is ASCII
alphanumeric (a panic is modelled as `.error`). -/
def Flag.withShorthand (f : Flag) (c : Char) : Except String Flag :=
  if ('a' ≤ c && c ≤ 'z') || ('A' ≤ c && c ≤ 'Z') || ('0' ≤ c && c ≤ '9') then
    .ok { f with shorthand := some c }
  else
    .error s!"Flag shorthand {c} is invalid! Must be A-Z, a-z, or 0-9."

/-- Model of the `Flag::description` builder. -/
def Flag.withDescription (f : Flag) (d : String) : Flag :=
  { f with description := some d }

/-- Model of the `Flag::env_var_delimiter` builder.  Faithful to the source: it
performs no validation of any kind and in particular never checks the
flag's value variant. -/
def Flag.withEnvVarDelimiter (f : Flag) (d : String) : Flag :=
  { f with env_var_delimiter := some d }

/-- Model of the `Flag::exclude_from_usage` builder. -/
def Flag.withExcludeFromUsage (f : Flag) : Flag :=
  { f with exclude_from_usage := true }

/-- ASCII uppercasing of one character; on the alphabet that
`Flag::new` admits for names (lowercase letters, digits, dashes) this
is exactly what Rust `str::to_uppercase` does per character. -/
def asciiUpcase (c : Char) : Char :=
  if 'a' ≤ c ∧ c ≤ 'z' then Char.ofNat (c.toNat - 32) else c

/-- Model of `Flag::get_env_var_name`: uppercase the name, then replace every
dash with an underscore (`str::replace` with the one-character pattern
`-` is the per-character substitution). -/
def Flag.get_env_var_name (f : Flag) : String :=
  String.mk ((f.name.data.map asciiUpcase).map (fun c => if c = '-' then '_' else c))

/-- Model of `Flag::set_value`: `assert_types_match` then overwrite (the panic on
a discriminant mismatch is modelled as `.error`; quoting of the name is
dropped from the message text). -/
def Flag.set_value (f : Flag) (v : FlagValue) : Except String Flag :=
  let n := f.name
  if v.tag = f.value.tag then .ok { f with value := v }
  else .error s!"Setting value for flag {n} failed: Type mismatch."

/-- Model of `Flag::update_array`: the reset-vs-append rule.  If `is_set` is
false this is the first write of the phase: replace the array and mark
the flag; otherwise extend it. -/
def update_array {T : Type} (mark : Bool) (array : List T) (values : List T) : Bool × List T :=
  if mark then (mark, array ++ values) else (true, values)

/-- Model of `Flag::append_values` (panics modelled as `.error`). -/
def Flag.append_values (f : Flag) (v : FlagValue) : Except String Flag :=
  let n := f.name
  if v.tag = f.value.tag then
    match f.value, v with
    | .StringArray curr, .StringArray values =>
        let r := update_array f.is_set curr values
        .ok { f with value := .StringArray r.2, is_set := r.1 }
    | .Int64Array curr, .Int64Array values =>
        let r := update_array f.is_set curr values
        .ok { f with value := .Int64Array r.2, is_set := r.1 }
    | .Int128Array curr, .Int128Array values =>
        let r := update_array f.is_set curr values
        .ok { f with value := .Int128Array r.2, is_set := r.1 }
    | .Float64Array curr, .Float64Array values =>
        let r := update_array f.is_set curr values
        .ok { f with value := .Float64Array r.2, is_set := r.1 }
    | _, _ => .error s!"Cannot use append_values() on flag {n}: Flag is not an array."
  else .error s!"Setting value for flag {n} failed: Type mismatch."

/-- Model of `Flag::set_value_parsed`: parse a single textual value according to
the flag's current variant; for array variants a successfully parsed
element goes through `append_values` (reset-vs-append). -/
def Flag.set_value_parsed (f : Flag) (value : String) : Except String Flag :=
  let n := f.name
  let error_msg := fun (t : String) =>
    s!"Failed to parse type {t} from flag {n} with value {value}"
  match f.value with
  | .Bool _ =>
      match parseBool value with
      | some b => .ok { f with value := .Bool b }
      | none => .error (error_msg "bool")
  | .String _ => .ok { f with value := .String value }
  | .Int64 _ =>
      match parseI64 value with
      | some n => .ok { f with value := .Int64 n }
      | none => .error (error_msg "i64")
  | .Int128 _ =>
      match parseI128 value with
      | some n => .ok { f with value := .Int128 n }
      | none => .error (error_msg "i128")
  | .Float64 _ =>
      match parseF64 value with
      | some x => .ok { f with value := .Float64 x }
      | none => .error (error_msg "f64")
  | .StringArray _ => f.append_values (.StringArray [value])
  | .Int64Array _ =>
      match parseI64 value with
      | some n => f.append_values (.Int64Array [n])
      | none => .error (error_msg "i64")
  | .Int128Array _ =>
      match parseI128 value with
      | some n => f.append_values (.Int128Array [n])
      | none => .error (error_msg "i128")
  | .Float64Array _ =>
      match parseF64 value with
      | some x => f.append_values (.Float64Array [x])
      | none => .error (error_msg "f64")

/-! ### Association-list model of the two hash maps -/

/-- Lookup in an association list (`HashMap::get`). -/
def alistLookup {α β : Type} [BEq α] : List (α × β) → α → Option β
  | [], _ => none
  | (k, v) :: rest, a => if k == a then some v else alistLookup rest a

/-- Replace the value stored under a key (`HashMap::get_mut` followed by
in-place mutation).  Keys are unique, so replacing the first match is
exact. -/
def setFlag : List (String × Flag) → String → Flag → List (String × Flag)
  | [], _, _ => []
  | (k, v) :: rest, n, g => if k == n then (k, g) :: rest else (k, v) :: setFlag rest n g

/-! ### JSON model -/

/-- A `serde_json` number: backed by an integer (`u64`/`i64`) when the
token has neither a decimal point nor an exponent, otherwise by `f64`
(modelled as `Rat`). -/
inductive JNum where
  | int (n : Int)
  | float (q : Rat)

/-- A parsed `serde_json::Value`. -/
inductive Json where
  | bool (b : Bool)
  | str (s : String)
  | num (n : JNum)
  | arr (a : List Json)
  | obj (o : List (String × Json))
  | null

/-- Model of `serde_json::Number::as_i64`: defined only for integer-backed
numbers inside the `i64` range. -/
def jNumAsI64 : JNum → Option Int
  | .int n => if i64Min ≤ n ∧ n ≤ i64Max then some n else none
  | .float _ => none

/-- Model of `serde_json::Number::as_i128`: defined only for integer-backed
numbers inside the `i128` range. -/
def jNumAsI128 : JNum → Option Int
  | .int n => if i128Min ≤ n ∧ n ≤ i128Max then some n else none
  | .float _ => none

/-- Model of `serde_json::Number::as_f64` (exact in the `Rat` model). -/
def jNumAsF64 : JNum → Option Rat
  | .int n => some (n : Rat)
  | .float q => some q

/-- The `Value::Array` branch of `Flags::parse_json`: walk the elements
with their index `i`; at `i == 0` a matching element *replaces* the
array, later matching elements are pushed; elements that are neither
strings nor numbers are silently skipped (`_ => {}` in the source);
a kind/variant mismatch aborts with an error, keeping the mutations
already performed on the flag. -/
def parseJsonArrayElems (name : String) (flag : Flag) : List Json → Nat → Flag × Option String
  | [], _ => (flag, none)
  | e :: rest, i =>
    match e with
    | .str s =>
      match flag.value with
      | .StringArray v =>
          parseJsonArrayElems name
            { flag with value := .StringArray (if i == 0 then [s] else v ++ [s]) } rest (i + 1)
      | _ => (flag, some s!"Property {name} is not of type string[]!")
    | .num number =>
      match flag.value with
      | .Int64Array v =>
        match jNumAsI64 number with
        | some n =>
            parseJsonArrayElems name
              { flag with value := .Int64Array (if i == 0 then [n] else v ++ [n]) } rest (i + 1)
        | none => (flag, some s!"Property {name} could not be parsed as a Vec<i64>!")
      | .Int128Array v =>
        match jNumAsI128 number with
        | some n =>
            parseJsonArrayElems name
              { flag with value := .Int128Array (if i == 0 then [n] else v ++ [n]) } rest (i + 1)
        | none => (flag, some s!"Property {name} could not be parsed as a Vec<i128>!")
      | .Float64Array v =>
        match jNumAsF64 number with
        | some x =>
            parseJsonArrayElems name
              { flag with value := .Float64Array (if i == 0 then [x] else v ++ [x]) } rest (i + 1)
        | none => (flag, some s!"Property {name} could not be parsed as a Vec<f64>!")
      | _ => (flag, some s!"Property {name} is not of type number[]!")
    | _ => parseJsonArrayElems name flag rest (i + 1)

/-- Coercion of one JSON value into one flag (`Flags::parse_json`,
inner match on `value`).  Returns the (possibly partially) updated flag
together with an optional error. -/
def parseJsonValue (name : String) (flag : Flag) : Json → Flag × Option String
  | .bool b =>
    match flag.value with
    | .Bool _ => ({ flag with value := .Bool b }, none)
    | _ => (flag, some s!"Property {name} is not of type bool!")
  | .str s =>
    match flag.value with
    | .String _ => ({ flag with value := .String s }, none)
    | _ => (flag, some s!"Property {name} is not of type string!")
  | .num number =>
    match flag.value with
    | .Int64 _ =>
      match jNumAsI64 number with
      | some n => ({ flag with value := .Int64 n }, none)
      | none => (flag, some s!"Property {name} could not be parsed as an i64!")
    | .Int128 _ =>
      match jNumAsI128 number with
      | some n => ({ flag with value := .Int128 n }, none)
      | none => (flag, some s!"Property {name} could not be parsed as an i128!")
    | .Float64 _ =>
      match jNumAsF64 number with
      | some x => ({ flag with value := .Float64 x }, none)
      | none => (flag, some s!"Property {name} could not be parsed as a f64!")
    | _ => (flag, some s!"Property {name} is not of type number!")
  | .arr a => parseJsonArrayElems name flag a 0
  | _ => (flag, some s!"Property {name} is of the wrong type!")

/-- The key loop of `Flags::parse_json` over the entries of the JSON
object, in map order.  The first error aborts the loop; mutations
performed up to (and within) the failing entry are kept, exactly as the
`&mut` map in the source keeps them. -/
def parse_json_obj (flags : List (String × Flag)) :
    List (String × Json) → List (String × Flag) × Option String
  | [] => (flags, none)
  | (name, value) :: rest =>
    match alistLookup flags name with
    | some flag =>
      match parseJsonValue name flag value with
      | (flag', none) => parse_json_obj (setFlag flags name flag') rest
      | (flag', some err) => (setFlag flags name flag', some err)
    | none => (flags, some s!"Unknown property: {name}")

/-- Model of `Flags::parse_json` on an already-parsed JSON document (the serde
string-to-`Value` step is out of scope; its failure is handled by the
caller `load` as a warning). -/
def parse_json (flags : List (String × Flag)) (j : Json) : List (String × Flag) × Option String :=
  match j with
  | .obj entries => parse_json_obj flags entries
  | _ => (flags, some "Config must be a JSON Object with keys as flag names and values as flag values.")

/-! ### The registry -/

/-- The `Flags` struct. -/
structure Flags where
  flags : List (String × Flag) := []
  shorthand_names : List (Char × String) := []
  positionals : List String := []
  config_files : List String := []
deriving DecidableEq, Repr

/-- Model of `Flags::add_config_file`. -/
def Flags.add_config_file (fl : Flags) (path : String) : Flags :=
  { fl with config_files := fl.config_files ++ [path] }

/-- Model of `Flags::add`: rejects duplicate names and duplicate shorthands
(the panics are modelled as `.error`). -/
def Flags.add (fl : Flags) (f : Flag) : Except String Flags :=
  if (alistLookup fl.flags f.name).isSome then
    .error "Flag with this name already exists!"
  else
    match f.shorthand with
    | some c =>
      if (alistLookup fl.shorthand_names c).isSome then
        .error "Flag with this shorthand already exists!"
      else
        .ok { fl with
              shorthand_names := fl.shorthand_names ++ [(c, f.name)],
              flags := fl.flags ++ [(f.name, f)] }
    | none => .ok { fl with flags := fl.flags ++ [(f.name, f)] }

/-- Model of `Flags::get_bool` (`none` models the panic on a missing flag or a
variant mismatch). -/
def Flags.get_bool (fl : Flags) (name : String) : Option Bool :=
  match alistLookup fl.flags name with
  | some f => match f.value with | .Bool v => some v | _ => none
  | none => none

/-- Model of `Flags::get_string`. -/
def Flags.get_string (fl : Flags) (name : String) : Option String :=
  match alistLookup fl.flags name with
  | some f => match f.value with | .String v => some v | _ => none
  | none => none

/-- Model of `Flags::get_i64`. -/
def Flags.get_i64 (fl : Flags) (name : String) : Option Int :=
  match alistLookup fl.flags name with
  | some f => match f.value with | .Int64 v => some v | _ => none
  | none => none

/-- Model of `Flags::get_string_array`. -/
def Flags.get_string_array (fl : Flags) (name : String) : Option (List String) :=
  match alistLookup fl.flags name with
  | some f => match f.value with | .StringArray v => some v | _ => none
  | none => none

/-- Model of `Flags::get_i64_array`. -/
def Flags.get_i64_array (fl : Flags) (name : String) : Option (List Int) :=
  match alistLookup fl.flags name with
  | some f => match f.value with | .Int64Array v => some v | _ => none
  | none => none

/-! ### The argument parser (`Flags::parse_args`) -/

/-- The mutable state of the `parse_args` loop: the two maps it can
touch, the accumulated positionals, `need_value_for_name` (the empty
string is the source's sentinel for "no flag awaiting a value") and the
`as_positionals` mode bit. -/
structure ParseState where
  flags : List (String × Flag)
  shorthand_names : List (Char × String)
  positionals : List String
  need_value_for_name : String
  as_positionals : Bool
deriving DecidableEq, Repr

/-- The inner `for c in shorthands.chars()` loop of `parse_args`:
boolean shorthands are set true on the spot; a non-boolean shorthand
overwrites `need_value_for_name`; an unregistered character aborts with
`Unknown flag: -c`.  The source's loop never breaks early. -/
def parseShorthands (st : ParseState) : List Char → Except String ParseState
  | [] => .ok st
  | c :: rest =>
    match alistLookup st.shorthand_names c with
    | some name =>
      match alistLookup st.flags name with
      | some flag =>
        match flag.value with
        | .Bool _ =>
            parseShorthands
              { st with flags := setFlag st.flags name { flag with value := .Bool true } } rest
        | _ => parseShorthands { st with need_value_for_name := name } rest
      | none => .error "shorthand_names contains key, but flags does not contain key"
    | none => .error s!"Unknown flag: -{c}"

/-- The long-form branch of `parse_args` (token starting with `--`):
a boolean flag is set true immediately, any other flag starts awaiting
its value, an unknown name aborts with `Unknown flag: --name`. -/
def longFlag (st : ParseState) (name : String) : Except String ParseState :=
  match alistLookup st.flags name with
  | some flag =>
    match flag.value with
    | .Bool _ => .ok { st with flags := setFlag st.flags name { flag with value := .Bool true } }
    | _ => .ok { st with need_value_for_name := name }
  | none => .error s!"Unknown flag: --{name}"

/-- One iteration of the `for arg in args` loop of `parse_args`, in the
source's branch order: positional-only mode, a pending value, the
tokens `-` and `--`, the long form, the short form, free text. -/
def parseArgsStep (st : ParseState) (arg : String) : Except String ParseState :=
  if st.as_positionals then
    .ok { st with positionals := st.positionals ++ [arg] }
  else if st.need_value_for_name ≠ "" then
    match alistLookup st.flags st.need_value_for_name with
    | some flag =>
      match flag.set_value_parsed arg with
      | .ok flag' =>
          .ok { st with flags := setFlag st.flags st.need_value_for_name flag',
                        need_value_for_name := "" }
      | .error e => .error e
    | none => .error "need_value_for_name set for unknown flag"
  else if arg = "-" then
    .ok { st with positionals := st.positionals ++ [arg] }
  else if arg = "--" then
    .ok { st with as_positionals := true }
  else if arg.data.take 2 = ['-', '-'] then
    longFlag st (String.mk (arg.data.drop 2))
  else if arg.data.take 1 = ['-'] then
    parseShorthands st (arg.data.drop 1)
  else
    .ok { st with positionals := st.positionals ++ [arg] }

/-- The `for arg in args` loop. -/
def parseArgsLoop (st : ParseState) : List String → Except String ParseState
  | [] => .ok st
  | a :: rest =>
    match parseArgsStep st a with
    | .ok st' => parseArgsLoop st' rest
    | .error e => .error e

/-- Model of `Flags::parse_args`. -/
def Flags.parse_args (fl : Flags) (args : List String) : Except String Flags :=
  match parseArgsLoop ⟨fl.flags, fl.shorthand_names, fl.positionals, "", false⟩ args with
  | .ok st => .ok { fl with flags := st.flags, positionals := st.positionals }
  | .error e => .error e

/-! ### The three-phase load (`Flags::load`) -/

/-- The `for item in value.split(&delim)` loop of phase 2, with the
source's early return on a parse error. -/
def setParsedAll (f : Flag) : List String → Except String Flag
  | [] => .ok f
  | item :: rest =>
    match f.set_value_parsed item with
    | .ok f' => setParsedAll f' rest
    | .error e => .error e

/-- Phase 2 for one flag: look up its derived environment-variable name;
for array-valued defaults require a configured delimiter (otherwise a
warning is printed and the flag is skipped), split and append each
piece; for scalar defaults parse-and-set the raw value.
`String.splitOn` agrees with Rust `str::split` for the non-empty
delimiters used here (for an empty delimiter Rust inserts empty edge
pieces, a case no claim exercises). -/
def applyEnvToFlag (flag : Flag) (env_vars : List (String × String)) : Except String Flag :=
  match alistLookup env_vars flag.get_env_var_name with
  | some value =>
    match flag.default_value with
    | .StringArray _ | .Int64Array _ | .Int128Array _ | .Float64Array _ =>
      match flag.env_var_delimiter with
      | some delim => setParsedAll flag (value.splitOn delim)
      | none => .ok flag
    | _ => flag.set_value_parsed value
  | none => .ok flag

/-- Phase 2 over every registered flag (`self.flags.values_mut()`; the
source iterates the hash map in unspecified order, but each flag is
processed independently of all others, so the list order used here is
equivalent); the first parse error aborts `load`. -/
def applyEnvAll : List (String × Flag) → List (String × String) → Except String (List (String × Flag))
  | [], _ => .ok []
  | (n, f) :: rest, env_vars =>
    match applyEnvToFlag f env_vars with
    | .ok f' =>
      match applyEnvAll rest env_vars with
      | .ok rest' => .ok ((n, f') :: rest')
      | .error e => .error e
    | .error e => .error e

/-- The reset of every `is_set` marker performed between phase 2 and
phase 3. -/
def clearIsSet (flags : List (String × Flag)) : List (String × Flag) :=
  flags.map (fun p => (p.1, { p.2 with is_set := false }))

/-- Phase 1: each registered config path, in registration order.  The
file system is an explicit input `fs` mapping a path to `some json` when
the file exists and parses, and to `none` when it exists but cannot be
read or is not valid JSON; a path absent from `fs` does not exist.  All
three failure kinds (and any `parse_json` error) are warnings only: the
flag map — including the partial mutations of a failing `parse_json` —
is kept and loading continues. -/
def loadConfigFiles (flags : List (String × Flag)) :
    List String → List (String × Option Json) → List (String × Flag)
  | [], _ => flags
  | p :: rest, fs =>
    match alistLookup fs p with
    | some (some j) => loadConfigFiles (parse_json flags j).1 rest fs
    | some none => loadConfigFiles flags rest fs
    | none => loadConfigFiles flags rest fs

/-- Model of `Flags::load`: phase 1 (config files, warnings only), phase 2
(environment, fatal on parse error), the `is_set` reset, then phase 3
(arguments, fatal on parse error). -/
def Flags.load (fl : Flags) (fs : List (String × Option Json))
    (env_vars : List (String × String)) (args : List String) : Except String Flags :=
  let flags1 := loadConfigFiles fl.flags fl.config_files fs
  match applyEnvAll flags1 env_vars with
  | .ok flags2 =>
      Flags.parse_args { fl with flags := clearIsSet flags2 } args
  | .error e => .error e

/-! ### Basic facts about the string and list helpers -/

theorem String.mk_data (s : String) : String.mk s.data = s := by
  cases s
  rfl

theorem stringMkConsNeEmpty (c : Char) (cs : List Char) : (String.mk (c :: cs) : String) ≠ "" := by
  intro h
  exact List.noConfusion (congrArg String.data h)

theorem dashDashAppendData (n : String) : ("--" ++ n).data = '-' :: '-' :: n.data := by
  rw [String.data_append]
  rfl

/-! ### Shape preservation: every write keeps the name, the default and
the value's variant tag -/

/-- Relation stating `g` is a possible later state of the flag `f`: same name, same
default, same value discriminant. -/
def FlagShape (f g : Flag) : Prop :=
  g.name = f.name ∧ g.default_value = f.default_value ∧ g.value.tag = f.value.tag

/-- Pointwise relation between two states of the flag map: same keys in
the same order, values related by `R`. -/
def MapRel (R : Flag → Flag → Prop) (m m' : List (String × Flag)) : Prop :=
  List.Forall₂ (fun p q => p.1 = q.1 ∧ R p.2 q.2) m m'

theorem flagShape_refl (f : Flag) : FlagShape f f := ⟨rfl, rfl, rfl⟩

theorem flagShape_trans {f g h : Flag} (h₁ : FlagShape f g) (h₂ : FlagShape g h) :
    FlagShape f h :=
  ⟨h₂.1.trans h₁.1, h₂.2.1.trans h₁.2.1, h₂.2.2.trans h₁.2.2⟩

theorem mapRel_refl {R : Flag → Flag → Prop} (hR : ∀ f, R f f) :
    ∀ m, MapRel R m m
  | [] => List.Forall₂.nil
  | _ :: rest => List.Forall₂.cons ⟨rfl, hR _⟩ (mapRel_refl hR rest)

theorem mapRel_mono {R S : Flag → Flag → Prop} (hRS : ∀ f g, R f g → S f g) :
    ∀ {m m'}, MapRel R m m' → MapRel S m m'
  | _, _, List.Forall₂.nil => List.Forall₂.nil
  | _, _, List.Forall₂.cons h t => List.Forall₂.cons ⟨h.1, hRS _ _ h.2⟩ (mapRel_mono hRS t)

theorem mapShape_trans : ∀ {m₁ m₂ m₃}, MapRel FlagShape m₁ m₂ → MapRel FlagShape m₂ m₃ →
    MapRel FlagShape m₁ m₃
  | _, _, _, List.Forall₂.nil, List.Forall₂.nil => List.Forall₂.nil
  | _, _, _, List.Forall₂.cons h₁ t₁, List.Forall₂.cons h₂ t₂ =>
    List.Forall₂.cons ⟨h₁.1.trans h₂.1, flagShape_trans h₁.2 h₂.2⟩ (mapShape_trans t₁ t₂)

theorem mapRel_lookup {R : Flag → Flag → Prop} :
    ∀ {m m'}, MapRel R m m' → ∀ {n f}, alistLookup m n = some f →
      ∃ g, alistLookup m' n = some g ∧ R f g := by
  intro m
  induction m with
  | nil => intro m' _ n f hf; simp [alistLookup] at hf
  | cons p rest ih =>
    intro m' h n f hf
    cases h with
    | cons hpq htail =>
      rename_i q rest'
      rw [alistLookup] at hf
      rw [alistLookup, ← hpq.1]
      by_cases hk : p.1 == n
      · rw [if_pos hk] at hf
        rw [if_pos hk]
        refine ⟨q.2, rfl, ?_⟩
        rw [← Option.some.inj hf]
        exact hpq.2
      · rw [if_neg hk] at hf
        rw [if_neg hk]
        exact ih htail hf

theorem mapRel_lookup_none {R : Flag → Flag → Prop} :
    ∀ {m m'}, MapRel R m m' → ∀ {n}, alistLookup m n = none →
      alistLookup m' n = none := by
  intro m
  induction m with
  | nil => intro m' h n _; cases h; rfl
  | cons p rest ih =>
    intro m' h n hf
    cases h with
    | cons hpq htail =>
      rw [alistLookup] at hf
      rw [alistLookup, ← hpq.1]
      by_cases hk : p.1 == n
      · rw [if_pos hk] at hf
        exact absurd hf (by simp)
      · rw [if_neg hk] at hf
        rw [if_neg hk]
        exact ih htail hf

theorem alistLookup_setFlag_self :
    ∀ {m : List (String × Flag)} {n f} (g : Flag), alistLookup m n = some f →
      alistLookup (setFlag m n g) n = some g := by
  intro m
  induction m with
  | nil => intro n f g h; simp [alistLookup] at h
  | cons p rest ih =>
    intro n f g h
    rw [alistLookup] at h
    rw [setFlag]
    by_cases hk : p.1 == n
    · rw [if_pos hk]
      rw [alistLookup, if_pos hk]
    · rw [if_neg hk] at h
      rw [if_neg hk, alistLookup, if_neg hk]
      exact ih g h

theorem mapRel_setFlag {R : Flag → Flag → Prop} (hRrefl : ∀ f, R f f) :
    ∀ {m : List (String × Flag)} {n f g}, alistLookup m n = some f → R f g →
      MapRel R m (setFlag m n g) := by
  intro m
  induction m with
  | nil => intro n f g h; simp [alistLookup] at h
  | cons p rest ih =>
    intro n f g h hfg
    rw [alistLookup] at h
    rw [setFlag]
    by_cases hk : p.1 == n
    · rw [if_pos hk] at h ⊢
      cases h
      exact List.Forall₂.cons ⟨rfl, hfg⟩ (mapRel_refl hRrefl rest)
    · rw [if_neg hk] at h ⊢
      exact List.Forall₂.cons ⟨rfl, hRrefl _⟩ (ih h hfg)

theorem alistLookup_clearIsSet (m : List (String × Flag)) (n : String) :
    alistLookup (clearIsSet m) n = (alistLookup m n).map (fun f => { f with is_set := false }) := by
  induction m with
  | nil => rfl
  | cons p rest ih =>
    rw [clearIsSet] at *
    rw [List.map_cons, alistLookup, alistLookup]
    by_cases hk : p.1 == n
    · rw [if_pos hk, if_pos hk]
      rfl
    · rw [if_neg hk, if_neg hk]
      exact ih

theorem mapShape_clearIsSet (m : List (String × Flag)) : MapRel FlagShape m (clearIsSet m) := by
  induction m with
  | nil => exact List.Forall₂.nil
  | cons p rest ih => exact List.Forall₂.cons ⟨rfl, rfl, rfl, rfl⟩ ih

theorem append_values_shape {f : Flag} {v : FlagValue} {g : Flag}
    (h : f.append_values v = .ok g) : FlagShape f g := by
  unfold Flag.append_values at h
  split at h
  · split at h <;>
      first
      | (simp only [Except.ok.injEq] at h
         subst h
         exact ⟨rfl, rfl, by simp_all [FlagValue.tag]⟩)
      | exact Except.noConfusion h
  · exact Except.noConfusion h

theorem set_value_parsed_shape {f : Flag} {s : String} {g : Flag}
    (h : f.set_value_parsed s = .ok g) : FlagShape f g := by
  unfold Flag.set_value_parsed at h
  split at h <;>
    first
    | exact append_values_shape h
    | (simp only [Except.ok.injEq] at h
       subst h
       exact ⟨rfl, rfl, by simp_all [FlagValue.tag]⟩)
    | (split at h <;>
        first
        | exact append_values_shape h
        | (simp only [Except.ok.injEq] at h
           subst h
           exact ⟨rfl, rfl, by simp_all [FlagValue.tag]⟩)
        | exact Except.noConfusion h)

theorem parseJsonArrayElems_shape (name : String) :
    ∀ (elems : List Json) (f : Flag) (i : Nat),
      FlagShape f (parseJsonArrayElems name f elems i).1 := by
  intro elems
  induction elems with
  | nil =>
    intro f i
    exact flagShape_refl f
  | cons e rest ih =>
    intro f i
    cases e with
    | str s =>
      cases hv : f.value <;>
        simp only [parseJsonArrayElems, hv] <;>
        first
        | exact flagShape_refl f
        | (refine flagShape_trans ?_ (ih _ _)
           exact ⟨rfl, rfl, by simp [hv, FlagValue.tag]⟩)
    | num nm =>
      cases hv : f.value <;>
        simp only [parseJsonArrayElems, hv] <;>
        first
        | exact flagShape_refl f
        | (rcases hn : jNumAsI64 nm with _ | n <;>
            simp only [hn] <;>
            first
            | exact flagShape_refl f
            | (refine flagShape_trans ?_ (ih _ _)
               exact ⟨rfl, rfl, by simp [hv, FlagValue.tag]⟩))
        | (rcases hn : jNumAsI128 nm with _ | n <;>
            simp only [hn] <;>
            first
            | exact flagShape_refl f
            | (refine flagShape_trans ?_ (ih _ _)
               exact ⟨rfl, rfl, by simp [hv, FlagValue.tag]⟩))
        | (rcases hn : jNumAsF64 nm with _ | n <;>
            simp only [hn] <;>
            first
            | exact flagShape_refl f
            | (refine flagShape_trans ?_ (ih _ _)
               exact ⟨rfl, rfl, by simp [hv, FlagValue.tag]⟩))
    | bool b => exact ih f (i + 1)
    | arr a => exact ih f (i + 1)
    | obj o => exact ih f (i + 1)
    | null => exact ih f (i + 1)

theorem parseJsonValue_shape (name : String) (f : Flag) (v : Json) :
    FlagShape f (parseJsonValue name f v).1 := by
  cases v with
  | bool b =>
    cases hv : f.value <;>
      simp only [parseJsonValue, hv] <;>
      first
      | exact flagShape_refl f
      | exact ⟨rfl, rfl, by simp [hv, FlagValue.tag]⟩
  | str s =>
    cases hv : f.value <;>
      simp only [parseJsonValue, hv] <;>
      first
      | exact flagShape_refl f
      | exact ⟨rfl, rfl, by simp [hv, FlagValue.tag]⟩
  | num nm =>
    cases hv : f.value <;>
      simp only [parseJsonValue, hv] <;>
      first
      | exact flagShape_refl f
      | (rcases hn : jNumAsI64 nm with _ | n <;>
          simp only [hn] <;>
          first
          | exact flagShape_refl f
          | exact ⟨rfl, rfl, by simp [hv, FlagValue.tag]⟩)
      | (rcases hn : jNumAsI128 nm with _ | n <;>
          simp only [hn] <;>
          first
          | exact flagShape_refl f
          | exact ⟨rfl, rfl, by simp [hv, FlagValue.tag]⟩)
      | (rcases hn : jNumAsF64 nm with _ | n <;>
          simp only [hn] <;>
          first
          | exact flagShape_refl f
          | exact ⟨rfl, rfl, by simp [hv, FlagValue.tag]⟩)
  | arr a => exact parseJsonArrayElems_shape name a f 0
  | obj o => exact flagShape_refl f
  | null => exact flagShape_refl f

theorem parse_json_obj_shape :
    ∀ (entries : List (String × Json)) (m : List (String × Flag)),
      MapRel FlagShape m (parse_json_obj m entries).1 := by
  intro entries
  induction entries with
  | nil => intro m; exact mapRel_refl flagShape_refl m
  | cons e rest ih =>
    intro m
    obtain ⟨name, value⟩ := e
    rcases hl : alistLookup m name with _ | flag
    · simp only [parse_json_obj, hl]
      exact mapRel_refl flagShape_refl m
    · have hshape : FlagShape flag (parseJsonValue name flag value).1 :=
        parseJsonValue_shape name flag value
      rcases hpv : parseJsonValue name flag value with ⟨flag', err⟩
      rw [hpv] at hshape
      have hset : MapRel FlagShape m (setFlag m name flag') :=
        mapRel_setFlag flagShape_refl hl hshape
      cases err with
      | none =>
        simp only [parse_json_obj, hl, hpv]
        exact mapShape_trans hset (ih (setFlag m name flag'))
      | some e =>
        simp only [parse_json_obj, hl, hpv]
        exact hset

theorem parse_json_shape (m : List (String × Flag)) (j : Json) :
    MapRel FlagShape m (parse_json m j).1 := by
  cases j <;>
    first
    | exact parse_json_obj_shape _ m
    | exact mapRel_refl flagShape_refl m

theorem loadConfigFiles_shape :
    ∀ (paths : List String) (m : List (String × Flag)) (fs : List (String × Option Json)),
      MapRel FlagShape m (loadConfigFiles m paths fs) := by
  intro paths
  induction paths with
  | nil => intro m fs; exact mapRel_refl flagShape_refl m
  | cons p rest ih =>
    intro m fs
    rcases hl : alistLookup fs p with _ | oj
    · simp only [loadConfigFiles, hl]
      exact ih m fs
    · cases oj with
      | none =>
        simp only [loadConfigFiles, hl]
        exact ih m fs
      | some j =>
        simp only [loadConfigFiles, hl]
        exact mapShape_trans (parse_json_shape m j) (ih _ fs)

theorem setParsedAll_shape :
    ∀ {items : List String} {f g : Flag}, setParsedAll f items = .ok g → FlagShape f g := by
  intro items
  induction items with
  | nil =>
    intro f g h
    simp only [setParsedAll, Except.ok.injEq] at h
    subst h
    exact flagShape_refl f
  | cons item rest ih =>
    intro f g h
    rw [setParsedAll] at h
    rcases hs : f.set_value_parsed item with e | f'
    · rw [hs] at h
      exact Except.noConfusion h
    · rw [hs] at h
      exact flagShape_trans (set_value_parsed_shape hs) (ih h)

theorem applyEnvToFlag_shape {f : Flag} {env_vars : List (String × String)} {g : Flag}
    (h : applyEnvToFlag f env_vars = .ok g) : FlagShape f g := by
  unfold applyEnvToFlag at h
  split at h
  · split at h <;>
      first
      | exact set_value_parsed_shape h
      | (split at h
         · exact setParsedAll_shape h
         · simp only [Except.ok.injEq] at h
           subst h
           exact flagShape_refl f)
  · simp only [Except.ok.injEq] at h
    subst h
    exact flagShape_refl f

theorem applyEnvAll_rel :
    ∀ {m : List (String × Flag)} {env_vars : List (String × String)} {m'},
      applyEnvAll m env_vars = .ok m' →
      MapRel (fun f g => applyEnvToFlag f env_vars = .ok g) m m' := by
  intro m
  induction m with
  | nil =>
    intro env_vars m' h
    simp only [applyEnvAll, Except.ok.injEq] at h
    subst h
    exact List.Forall₂.nil
  | cons p rest ih =>
    intro env_vars m' h
    obtain ⟨n, f⟩ := p
    rw [applyEnvAll] at h
    rcases he : applyEnvToFlag f env_vars with e | f'
    · simp only [he] at h
      exact Except.noConfusion h
    · simp only [he] at h
      rcases hr : applyEnvAll rest env_vars with e | rest'
      · simp only [hr] at h
        exact Except.noConfusion h
      · simp only [hr, Except.ok.injEq] at h
        subst h
        exact List.Forall₂.cons ⟨rfl, he⟩ (ih hr)

theorem applyEnvAll_shape {m : List (String × Flag)} {env_vars : List (String × String)} {m'}
    (h : applyEnvAll m env_vars = .ok m') : MapRel FlagShape m m' :=
  mapRel_mono (fun _ _ hfg => applyEnvToFlag_shape hfg) (applyEnvAll_rel h)

theorem applyEnvToFlag_nil (f : Flag) : applyEnvToFlag f [] = .ok f := rfl

theorem applyEnvAll_nil : ∀ (m : List (String × Flag)), applyEnvAll m [] = .ok m := by
  intro m
  induction m with
  | nil => rfl
  | cons p rest ih =>
    obtain ⟨n, f⟩ := p
    rw [applyEnvAll, applyEnvToFlag_nil, ih]

theorem loadConfigFiles_noFs :
    ∀ (paths : List String) (m : List (String × Flag)), loadConfigFiles m paths [] = m := by
  intro paths
  induction paths with
  | nil => intro m; rfl
  | cons p rest ih => intro m; exact ih m

theorem parseShorthands_rel :
    ∀ {cs : List Char} {st st' : ParseState}, parseShorthands st cs = .ok st' →
      MapRel FlagShape st.flags st'.flags ∧
        st'.shorthand_names = st.shorthand_names ∧ st'.positionals = st.positionals := by
  intro cs
  induction cs with
  | nil =>
    intro st st' h
    simp only [parseShorthands, Except.ok.injEq] at h
    subst h
    exact ⟨mapRel_refl flagShape_refl _, rfl, rfl⟩
  | cons c rest ih =>
    intro st st' h
    rw [parseShorthands] at h
    rcases hc : alistLookup st.shorthand_names c with _ | name
    · simp only [hc] at h
      exact Except.noConfusion h
    · simp only [hc] at h
      rcases hn : alistLookup st.flags name with _ | flag
      · simp only [hn] at h
        exact Except.noConfusion h
      · simp only [hn] at h
        rcases hv : flag.value with b | s | n' | n' | x | v | v | v | v
        all_goals simp only [hv] at h
        case Bool =>
          obtain ⟨hm, hsh, hpos⟩ := ih h
          refine ⟨mapShape_trans ?_ hm, hsh, hpos⟩
          exact mapRel_setFlag flagShape_refl hn ⟨rfl, rfl, by simp [hv, FlagValue.tag]⟩
        all_goals (have hrec := ih h; exact ⟨hrec.1, hrec.2.1, hrec.2.2⟩)

theorem longFlag_rel {st : ParseState} {name : String} {st' : ParseState}
    (h : longFlag st name = .ok st') :
    MapRel FlagShape st.flags st'.flags ∧
      st'.shorthand_names = st.shorthand_names ∧ st'.positionals = st.positionals := by
  unfold longFlag at h
  rcases hn : alistLookup st.flags name with _ | flag
  · simp only [hn] at h
    exact Except.noConfusion h
  · simp only [hn] at h
    rcases hv : flag.value with b | s | n' | n' | x | v | v | v | v
    all_goals simp only [hv, Except.ok.injEq] at h
    all_goals subst h
    case Bool =>
      exact ⟨mapRel_setFlag flagShape_refl hn ⟨rfl, rfl, by simp [hv, FlagValue.tag]⟩, rfl, rfl⟩
    all_goals exact ⟨mapRel_refl flagShape_refl _, rfl, rfl⟩

theorem parseArgsStep_rel {st : ParseState} {arg : String} {st' : ParseState}
    (h : parseArgsStep st arg = .ok st') :
    MapRel FlagShape st.flags st'.flags ∧ st'.shorthand_names = st.shorthand_names := by
  unfold parseArgsStep at h
  split at h
  · simp only [Except.ok.injEq] at h
    subst h
    exact ⟨mapRel_refl flagShape_refl _, rfl⟩
  · split at h
    · rcases hn : alistLookup st.flags st.need_value_for_name with _ | flag
      · simp only [hn] at h
        exact Except.noConfusion h
      · simp only [hn] at h
        rcases hs : flag.set_value_parsed arg with e | flag'
        · simp only [hs] at h
          exact Except.noConfusion h
        · simp only [hs, Except.ok.injEq] at h
          subst h
          exact ⟨mapRel_setFlag flagShape_refl hn (set_value_parsed_shape hs), rfl⟩
    · split at h
      · simp only [Except.ok.injEq] at h
        subst h
        exact ⟨mapRel_refl flagShape_refl _, rfl⟩
      · split at h
        · simp only [Except.ok.injEq] at h
          subst h
          exact ⟨mapRel_refl flagShape_refl _, rfl⟩
        · split at h
          · exact ⟨(longFlag_rel h).1, (longFlag_rel h).2.1⟩
          · split at h
            · exact ⟨(parseShorthands_rel h).1, (parseShorthands_rel h).2.1⟩
            · simp only [Except.ok.injEq] at h
              subst h
              exact ⟨mapRel_refl flagShape_refl _, rfl⟩

theorem parseArgsLoop_rel :
    ∀ {args : List String} {st st' : ParseState}, parseArgsLoop st args = .ok st' →
      MapRel FlagShape st.flags st'.flags ∧ st'.shorthand_names = st.shorthand_names := by
  intro args
  induction args with
  | nil =>
    intro st st' h
    simp only [parseArgsLoop, Except.ok.injEq] at h
    subst h
    exact ⟨mapRel_refl flagShape_refl _, rfl⟩
  | cons a rest ih =>
    intro st st' h
    rw [parseArgsLoop] at h
    rcases hs : parseArgsStep st a with e | st₁
    · simp only [hs] at h
      exact Except.noConfusion h
    · simp only [hs] at h
      obtain ⟨hm₁, hsh₁⟩ := parseArgsStep_rel hs
      obtain ⟨hm₂, hsh₂⟩ := ih h
      exact ⟨mapShape_trans hm₁ hm₂, hsh₂.trans hsh₁⟩

theorem parse_args_shape {fl : Flags} {args : List String} {fl' : Flags}
    (h : fl.parse_args args = .ok fl') :
    MapRel FlagShape fl.flags fl'.flags ∧ fl'.shorthand_names = fl.shorthand_names ∧
      fl'.config_files = fl.config_files := by
  unfold Flags.parse_args at h
  rcases hs : parseArgsLoop ⟨fl.flags, fl.shorthand_names, fl.positionals, "", false⟩ args
      with e | st
  · simp only [hs] at h
    exact Except.noConfusion h
  · simp only [hs, Except.ok.injEq] at h
    subst h
    exact ⟨(parseArgsLoop_rel hs).1, rfl, rfl⟩

theorem load_shape {fl : Flags} {fs : List (String × Option Json)}
    {env_vars : List (String × String)} {args : List String} {fl' : Flags}
    (h : fl.load fs env_vars args = .ok fl') :
    MapRel FlagShape fl.flags fl'.flags ∧ fl'.shorthand_names = fl.shorthand_names := by
  unfold Flags.load at h
  rcases he : applyEnvAll (loadConfigFiles fl.flags fl.config_files fs) env_vars with e | m₂
  · simp only [he] at h
    exact Except.noConfusion h
  · simp only [he] at h
    have h₁ : MapRel FlagShape fl.flags (loadConfigFiles fl.flags fl.config_files fs) :=
      loadConfigFiles_shape fl.config_files fl.flags fs
    have h₂ : MapRel FlagShape fl.flags m₂ := mapShape_trans h₁ (applyEnvAll_shape he)
    have h₃ : MapRel FlagShape fl.flags (clearIsSet m₂) :=
      mapShape_trans h₂ (mapShape_clearIsSet m₂)
    obtain ⟨hm, hsh, _⟩ := parse_args_shape h
    exact ⟨mapShape_trans h₃ hm, hsh⟩

/-! ### The variant-tag invariant and a determinism fact for scalars -/

/-- Every flag of the map carries a current value of the same variant as
its default (the invariant `Flag::new` establishes and every write is
meant to preserve). -/
def flagsOk (m : List (String × Flag)) : Prop :=
  ∀ p ∈ m, (p.2.value).tag = (p.2.default_value).tag

theorem mapShape_flagsOk :
    ∀ {m m'}, MapRel FlagShape m m' → flagsOk m → flagsOk m' := by
  intro m
  induction m with
  | nil =>
    intro m' h hok
    cases h
    exact hok
  | cons p rest ih =>
    intro m' h hok
    cases h with
    | cons hpq htail =>
      rename_i q rest'
      intro r hr
      cases hr with
      | head =>
        have h1 : (q.2.value).tag = (p.2.value).tag := hpq.2.2.2
        have h2 : q.2.default_value = p.2.default_value := hpq.2.2.1
        rw [h1, h2]
        exact hok p (List.mem_cons_self p rest)
      | tail _ hr' =>
        exact ih htail (fun x hx => hok x (List.mem_cons_of_mem p hx)) r hr'

/-- For a scalar (non-array) flag, the result of `set_value_parsed`
does not depend on the flag's previous value: two flags with the same
name and the same scalar variant parse any string identically. -/
theorem set_value_parsed_scalar_det {f g : Flag} (s : String)
    (hname : g.name = f.name) (htag : (g.value).tag = (f.value).tag)
    (hscalar : tagIsArray (f.value).tag = false) :
    (g.set_value_parsed s).map (fun x => x.value) =
      (f.set_value_parsed s).map (fun x => x.value) := by
  rcases hfv : f.value with b | s₀ | n₀ | n₀ | x₀ | v₀ | v₀ | v₀ | v₀ <;>
    rcases hgv : g.value with b' | s₁ | n₁ | n₁ | x₁ | v₁ | v₁ | v₁ | v₁ <;>
      rw [hfv] at htag hscalar <;> rw [hgv] at htag <;>
      simp [FlagValue.tag, tagIsArray] at htag hscalar <;>
      simp only [Flag.set_value_parsed, hfv, hgv, hname] <;>
      first
      | rfl
      | ((cases hp : parseBool s <;> simp [hp, Except.map]) <;> done)
      | ((cases hp : parseI64 s <;> simp [hp, Except.map]) <;> done)
      | ((cases hp : parseI128 s <;> simp [hp, Except.map]) <;> done)
      | ((cases hp : parseF64 s <;> simp [hp, Except.map]) <;> done)

/-! ### Pointwise facts about `setFlag` and the parser steps -/

theorem alistLookup_setFlag_ne {m : List (String × Flag)} {n n' : String} (g : Flag)
    (hne : n' ≠ n) : alistLookup (setFlag m n g) n' = alistLookup m n' := by
  induction m with
  | nil => rfl
  | cons p rest ih =>
    rw [setFlag]
    by_cases hk : p.1 == n
    · rw [if_pos hk]
      have hpn : p.1 = n := beq_iff_eq.mp hk
      have hk' : (p.1 == n') = false := by
        apply beq_eq_false_iff_ne.mpr
        intro hEq
        exact hne (by rw [← hEq]; exact hpn)
      rw [alistLookup, alistLookup, hk']
      simp
    · rw [if_neg hk]
      rw [alistLookup, alistLookup, ih]

theorem stringNeEmptyOfCons {n : String} {c : Char} {cs : List Char}
    (h : n.data = c :: cs) : n ≠ "" := by
  intro hEq
  rw [hEq] at h
  exact List.noConfusion h

/-- In scanning state, a `--name` token with a nonempty name takes the
long-form branch. -/
theorem parseArgsStep_long (st : ParseState) (n : String)
    (hpos : st.as_positionals = false) (hneed : st.need_value_for_name = "")
    (hn : n ≠ "") :
    parseArgsStep st ("--" ++ n) = longFlag st n := by
  have hne1 : ("--" ++ n) ≠ "-" := by
    intro h
    have hd := congrArg String.data h
    rw [dashDashAppendData] at hd
    simp at hd
  have hne2 : ("--" ++ n) ≠ "--" := by
    intro h
    apply hn
    have hd := congrArg String.data h
    rw [dashDashAppendData] at hd
    simp only [List.cons.injEq, and_true, true_and] at hd
    cases n with
    | mk data =>
      simp only [String.data] at hd
      rw [show ("" : String) = String.mk [] from rfl]
      exact congrArg String.mk hd
  have ht : ("--" ++ n).data.take 2 = ['-', '-'] := by
    rw [dashDashAppendData]
    rfl
  have hdrop : ("--" ++ n).data.drop 2 = n.data := by
    rw [dashDashAppendData]
    rfl
  simp only [parseArgsStep, hpos, hneed, hne1, hne2, ht, hdrop, String.mk_data,
    Bool.false_eq_true, if_false, ne_eq, not_true_eq_false, not_false_eq_true,
    ite_false, ite_true, if_true]
  try simp

/-- A token is consumed verbatim as the value of the flag the parser is
awaiting. -/
theorem parseArgsStep_awaiting (st : ParseState) (arg : String)
    (hpos : st.as_positionals = false) (hneed : st.need_value_for_name ≠ "") :
    parseArgsStep st arg =
      match alistLookup st.flags st.need_value_for_name with
      | some flag =>
        match flag.set_value_parsed arg with
        | .ok flag' =>
            .ok { st with flags := setFlag st.flags st.need_value_for_name flag',
                          need_value_for_name := "" }
        | .error e => .error e
      | none => .error "need_value_for_name set for unknown flag" := by
  simp only [parseArgsStep, hpos, hneed, Bool.false_eq_true, if_false, ne_eq,
    not_false_eq_true, ite_true, ite_false]
  try simp [hneed]

/-- In scanning state, a single-dash token whose second character is not
a dash takes the shorthand-cluster branch. -/
theorem parseArgsStep_short (st : ParseState) (b : Char) (cs : List Char)
    (hpos : st.as_positionals = false) (hneed : st.need_value_for_name = "")
    (hb : b ≠ '-') :
    parseArgsStep st (String.mk ('-' :: b :: cs)) = parseShorthands st (b :: cs) := by
  have hne1 : (String.mk ('-' :: b :: cs)) ≠ "-" := by
    intro h
    have hd := congrArg String.data h
    simp only [String.data] at hd
    simp at hd
  have hne2 : (String.mk ('-' :: b :: cs)) ≠ "--" := by
    intro h
    have hd := congrArg String.data h
    simp only [String.data] at hd
    simp at hd
    exact hb hd.1
  have ht2 : (String.mk ('-' :: b :: cs)).data.take 2 ≠ ['-', '-'] := by
    simp only [String.data]
    intro h
    simp at h
    exact hb h
  have ht1 : (String.mk ('-' :: b :: cs)).data.take 1 = ['-'] := rfl
  have hdrop : (String.mk ('-' :: b :: cs)).data.drop 1 = b :: cs := rfl
  simp only [parseArgsStep, hpos, hneed, hne1, hne2, ht2, ht1, hdrop,
    Bool.false_eq_true, if_false, ne_eq, not_true_eq_false, not_false_eq_true,
    ite_false, ite_true, if_true]
  try simp

/-- The first write of a phase to a `StringArray` flag resets the array
to the single parsed element. -/
theorem set_value_parsed_sa_reset (f : Flag) (d : List String) (v : String)
    (hv : f.value = .StringArray d) (hset : f.is_set = false) :
    f.set_value_parsed v = .ok { f with value := .StringArray [v], is_set := true } := by
  simp [Flag.set_value_parsed, hv, Flag.append_values, FlagValue.tag, update_array, hset]

/-- A later write of the same phase to a `StringArray` flag appends the
parsed element. -/
theorem set_value_parsed_sa_append (f : Flag) (d : List String) (v : String)
    (hv : f.value = .StringArray d) (hset : f.is_set = true) :
    f.set_value_parsed v = .ok { f with value := .StringArray (d ++ [v]), is_set := true } := by
  simp [Flag.set_value_parsed, hv, Flag.append_values, FlagValue.tag, update_array, hset]

theorem longFlag_nonbool (st : ParseState) (name : String) (flag : Flag)
    (hn : alistLookup st.flags name = some flag) (hv : (flag.value).tag ≠ .Bool) :
    longFlag st name = .ok { st with need_value_for_name := name } := by
  unfold longFlag
  simp only [hn]
  rcases hfv : flag.value with b | s | n' | n' | x | v | v | v | v
  · rw [hfv] at hv
    exact absurd rfl hv
  all_goals (simp only [hfv]; try rfl)

theorem longFlag_bool (st : ParseState) (name : String) (flag : Flag) (b : Bool)
    (hn : alistLookup st.flags name = some flag) (hv : flag.value = .Bool b) :
    longFlag st name =
      .ok { st with flags := setFlag st.flags name { flag with value := .Bool true } } := by
  unfold longFlag
  simp only [hn, hv]

theorem parseShorthands_nonbool_step (st : ParseState) (c : Char) (name : String) (flag : Flag)
    (hc : alistLookup st.shorthand_names c = some name)
    (hn : alistLookup st.flags name = some flag) (hv : (flag.value).tag ≠ .Bool)
    (rest : List Char) :
    parseShorthands st (c :: rest) =
      parseShorthands { st with need_value_for_name := name } rest := by
  rw [parseShorthands]
  simp only [hc, hn]
  rcases hfv : flag.value with b | s | n' | n' | x | v | v | v | v
  · rw [hfv] at hv
    exact absurd rfl hv
  all_goals (simp only [hfv]; try rfl)

theorem parseShorthands_bool_step (st : ParseState) (c : Char) (name : String) (flag : Flag)
    (b : Bool) (hc : alistLookup st.shorthand_names c = some name)
    (hn : alistLookup st.flags name = some flag) (hv : flag.value = .Bool b)
    (rest : List Char) :
    parseShorthands st (c :: rest) =
      parseShorthands
        { st with flags := setFlag st.flags name { flag with value := .Bool true } } rest := by
  rw [parseShorthands]
  simp only [hc, hn, hv]

theorem parseShorthands_unknown (st : ParseState) (c : Char)
    (hc : alistLookup st.shorthand_names c = none) (rest : List Char) :
    parseShorthands st (c :: rest) = .error s!"Unknown flag: -{c}" := by
  rw [parseShorthands]
  simp only [hc]

theorem parseArgsLoop_cons_ok {st st' : ParseState} {a : String} (rest : List String)
    (h : parseArgsStep st a = .ok st') :
    parseArgsLoop st (a :: rest) = parseArgsLoop st' rest := by
  rw [parseArgsLoop]
  simp only [h]

theorem parseArgsLoop_cons_error {st : ParseState} {a : String} {e : String}
    (rest : List String) (h : parseArgsStep st a = .error e) :
    parseArgsLoop st (a :: rest) = .error e := by
  rw [parseArgsLoop]
  simp only [h]

theorem parseArgsStep_value_ok {st : ParseState} {arg : String} {flag flag' : Flag}
    (hpos : st.as_positionals = false) (hneed : st.need_value_for_name ≠ "")
    (hn : alistLookup st.flags st.need_value_for_name = some flag)
    (hs : flag.set_value_parsed arg = .ok flag') :
    parseArgsStep st arg =
      .ok { st with flags := setFlag st.flags st.need_value_for_name flag',
                    need_value_for_name := "" } := by
  rw [parseArgsStep_awaiting st arg hpos hneed]
  simp only [hn, hs]

theorem parseArgsStep_value_error {st : ParseState} {arg : String} {flag : Flag} {e : String}
    (hpos : st.as_positionals = false) (hneed : st.need_value_for_name ≠ "")
    (hn : alistLookup st.flags st.need_value_for_name = some flag)
    (hs : flag.set_value_parsed arg = .error e) :
    parseArgsStep st arg = .error e := by
  rw [parseArgsStep_awaiting st arg hpos hneed]
  simp only [hn, hs]

theorem append_values_delim_comm (f : Flag) (d : String) (v : FlagValue) :
    Flag.append_values { f with env_var_delimiter := some d } v =
      (f.append_values v).map (fun g => { g with env_var_delimiter := some d }) := by
  rcases hv : f.value with b | s | n' | n' | x | w | w | w | w <;>
    rcases hw : v with b' | s' | m' | m' | y | u | u | u | u <;>
      simp [Flag.append_values, hv, hw, FlagValue.tag, Except.map]

theorem set_value_parsed_delim_comm (f : Flag) (d : String) (s : String) :
    Flag.set_value_parsed { f with env_var_delimiter := some d } s =
      (f.set_value_parsed s).map (fun g => { g with env_var_delimiter := some d }) := by
  obtain ⟨nm, dv, val, sh, de, evd, ex, iss⟩ := f
  cases val with
  | Bool b =>
    simp only [Flag.set_value_parsed]
    cases hp : parseBool s <;> simp [hp, Except.map]
  | String s' => simp [Flag.set_value_parsed, Except.map]
  | Int64 n' =>
    simp only [Flag.set_value_parsed]
    cases hp : parseBool s <;> cases hq : parseI64 s <;> simp [hq, Except.map]
  | Int128 n' =>
    simp only [Flag.set_value_parsed]
    cases hq : parseI128 s <;> simp [hq, Except.map]
  | Float64 x =>
    simp only [Flag.set_value_parsed]
    cases hq : parseF64 s <;> simp [hq, Except.map]
  | StringArray w =>
    exact append_values_delim_comm ⟨nm, dv, .StringArray w, sh, de, evd, ex, iss⟩ d
      (.StringArray [s])
  | Int64Array w =>
    simp only [Flag.set_value_parsed]
    cases hq : parseI64 s with
    | none => rfl
    | some n =>
      exact append_values_delim_comm ⟨nm, dv, .Int64Array w, sh, de, evd, ex, iss⟩ d
        (.Int64Array [n])
  | Int128Array w =>
    simp only [Flag.set_value_parsed]
    cases hq : parseI128 s with
    | none => rfl
    | some n =>
      exact append_values_delim_comm ⟨nm, dv, .Int128Array w, sh, de, evd, ex, iss⟩ d
        (.Int128Array [n])
  | Float64Array w =>
    simp only [Flag.set_value_parsed]
    cases hq : parseF64 s with
    | none => rfl
    | some n =>
      exact append_values_delim_comm ⟨nm, dv, .Float64Array w, sh, de, evd, ex, iss⟩ d
        (.Float64Array [n])

/-! ### Claim C7 -/

/-- C7 counterexample: the claim says setting an env-var delimiter on a
non-array (here boolean) descriptor is an immediate fatal construction
fault, but the builder chain accepts it: `Flag::new` followed by
`env_var_delimiter(",")` succeeds and simply stores the delimiter. -/
theorem C7_counterexample :
    (Flag.new "my-bool" (FlagValue.Bool false)).map
        (fun f => (f.withEnvVarDelimiter ",").env_var_delimiter) = .ok (some ",") := rfl

/-- C7 amended: `env_var_delimiter` performs no validation on any flag:
it stores the delimiter and returns the builder unchanged otherwise;
for a flag whose default value is a scalar (non-array) variant the
stored delimiter is simply ignored by the environment phase, which
behaves exactly as it would without the delimiter. -/
theorem C7_delim_accepted_and_ignored :
    (∀ (f : Flag) (d : String),
        (f.withEnvVarDelimiter d).env_var_delimiter = some d ∧
        (f.withEnvVarDelimiter d).value = f.value ∧
        (f.withEnvVarDelimiter d).default_value = f.default_value ∧
        (f.withEnvVarDelimiter d).name = f.name)
    ∧ (∀ (f : Flag) (d : String) (env_vars : List (String × String)),
        tagIsArray ((f.default_value).tag) = false →
        applyEnvToFlag (f.withEnvVarDelimiter d) env_vars =
          (applyEnvToFlag f env_vars).map (fun g => g.withEnvVarDelimiter d)) := by
  constructor
  · intro f d
    exact ⟨rfl, rfl, rfl, rfl⟩
  · intro f d env_vars hscalar
    obtain ⟨nm, dv, val, sh, de, evd, ex, iss⟩ := f
    simp only [Flag.withEnvVarDelimiter, applyEnvToFlag]
    have hkey : Flag.get_env_var_name ⟨nm, dv, val, sh, de, some d, ex, iss⟩ =
        Flag.get_env_var_name ⟨nm, dv, val, sh, de, evd, ex, iss⟩ := rfl
    rw [hkey]
    rcases he : alistLookup env_vars
        (Flag.get_env_var_name ⟨nm, dv, val, sh, de, evd, ex, iss⟩) with _ | value
    · simp [he, Except.map]
    · simp only [he]
      rcases dv with b | s | n' | n' | x | w | w | w | w <;>
        simp [FlagValue.tag, tagIsArray] at hscalar
      · exact set_value_parsed_delim_comm ⟨nm, .Bool b, val, sh, de, evd, ex, iss⟩ d value
      · exact set_value_parsed_delim_comm ⟨nm, .String s, val, sh, de, evd, ex, iss⟩ d value
      · exact set_value_parsed_delim_comm ⟨nm, .Int64 n', val, sh, de, evd, ex, iss⟩ d value
      · exact set_value_parsed_delim_comm ⟨nm, .Int128 n', val, sh, de, evd, ex, iss⟩ d value
      · exact set_value_parsed_delim_comm ⟨nm, .Float64 x, val, sh, de, evd, ex, iss⟩ d value

/-- C7 witness: the amended behaviour at a concrete scalar flag. -/
theorem C7_witness :
    applyEnvToFlag
        (({ name := "port", default_value := FlagValue.Int64 80,
            value := FlagValue.Int64 80 } : Flag).withEnvVarDelimiter ",")
        [("PORT", "9")] =
      (applyEnvToFlag
          { name := "port", default_value := FlagValue.Int64 80, value := FlagValue.Int64 80 }
          [("PORT", "9")]).map (fun g => g.withEnvVarDelimiter ",") :=
  C7_delim_accepted_and_ignored.2
    { name := "port", default_value := FlagValue.Int64 80, value := FlagValue.Int64 80 }
    "," [("PORT", "9")] (by decide)

/-! ### Claim C8 -/

/-- The registry of the concrete `--` scenario: one boolean flag with
shorthand `f`, so that `-f` would count as a flag outside
positional-only mode. -/
def c8Flags : Flags :=
  { flags := [("flag", { name := "flag", default_value := .Bool false,
                         value := .Bool false, shorthand := some 'f' })],
    shorthand_names := [('f', "flag")] }

/-- C8: after a bare `--` the parser is in positional-only mode for the
whole remaining input and every later token — flag-looking or not — is
appended to the positionals with the registry untouched; a bare `-` in
scanning state is recorded as a positional, not a flag; and on the
spec's example the positionals come out as stated, with the boolean
flag left unset. -/
theorem C8_terminator_and_dash :
    (∀ (flags : List (String × Flag)) (sh : List (Char × String)) (pos : List String)
        (need : String) (rest : List String),
        parseArgsLoop ⟨flags, sh, pos, need, true⟩ rest = .ok ⟨flags, sh, pos ++ rest, need, true⟩)
    ∧ (∀ (flags : List (String × Flag)) (sh : List (Char × String)) (pos : List String),
        parseArgsStep ⟨flags, sh, pos, "", false⟩ "-" = .ok ⟨flags, sh, pos ++ ["-"], "", false⟩)
    ∧ (∀ (flags : List (String × Flag)) (sh : List (Char × String)) (pos : List String),
        parseArgsStep ⟨flags, sh, pos, "", false⟩ "--" = .ok ⟨flags, sh, pos, "", true⟩)
    ∧ (c8Flags.parse_args ["a", "--", "--not-a-flag", "-f"] =
        .ok { c8Flags with positionals := ["a", "--not-a-flag", "-f"] }) := by
  refine ⟨?_, ?_, ?_, ?_⟩
  · intro flags sh pos need rest
    induction rest generalizing pos with
    | nil => simp [parseArgsLoop]
    | cons a rest ih =>
      rw [parseArgsLoop]
      have hstep : parseArgsStep ⟨flags, sh, pos, need, true⟩ a =
          .ok ⟨flags, sh, pos ++ [a], need, true⟩ := rfl
      simp only [hstep]
      rw [ih (pos ++ [a])]
      simp
  · intro flags sh pos
    rfl
  · intro flags sh pos
    rfl
  · rfl

/-! ### Claim C10 -/

/-- C10: when the argument vector ends while the parser is still
awaiting a value for a non-boolean flag, the loop simply returns
success (the end-of-input case performs no validation of
`need_value_for_name`), and a lone `--name` occurrence of a registered
non-boolean flag leaves the whole registry — in particular that flag's
value — and the positionals unchanged. -/
theorem C10_dangling_value_flag :
    (∀ (st : ParseState), parseArgsLoop st [] = .ok st)
    ∧ (∀ (fl : Flags) (n : String) (f : Flag),
        alistLookup fl.flags n = some f → (f.value).tag ≠ .Bool → n ≠ "" →
        fl.parse_args ["--" ++ n] = .ok fl) := by
  constructor
  · intro st
    rfl
  · intro fl n f hl hv hn
    have s1 : parseArgsStep ⟨fl.flags, fl.shorthand_names, fl.positionals, "", false⟩
        ("--" ++ n) = .ok ⟨fl.flags, fl.shorthand_names, fl.positionals, n, false⟩ := by
      rw [parseArgsStep_long _ n rfl rfl hn]
      exact longFlag_nonbool _ n f hl hv
    unfold Flags.parse_args
    rw [parseArgsLoop_cons_ok [] s1]
    rfl

/-- C10 witness: a dangling `--port` on a one-flag registry. -/
theorem C10_witness :
    (Flags.parse_args
        { flags := [("port", { name := "port", default_value := FlagValue.Int64 80,
                               value := FlagValue.Int64 80 })] } ["--port"]) =
      .ok { flags := [("port", { name := "port", default_value := FlagValue.Int64 80,
                                 value := FlagValue.Int64 80 })] } :=
  C10_dangling_value_flag.2
    { flags := [("port", { name := "port", default_value := FlagValue.Int64 80,
                           value := FlagValue.Int64 80 })] }
    "port" { name := "port", default_value := FlagValue.Int64 80, value := FlagValue.Int64 80 }
    (by decide) (by decide) (by decide)

/-! ### Claim C6 -/

/-- C6: an unknown long flag aborts `load` with the structured error
`Unknown flag: --name`, and an unknown shorthand character aborts it
with `Unknown flag: -c` (with empty environment and no readable config
files, so phases 1 and 2 are no-ops). -/
theorem C6_unknown_flag_error :
    (∀ (fl : Flags) (n : String), n ≠ "" → alistLookup fl.flags n = none →
        fl.load [] [] ["--" ++ n] = .error s!"Unknown flag: --{n}")
    ∧ (∀ (fl : Flags) (c : Char), c ≠ '-' → alistLookup fl.shorthand_names c = none →
        fl.load [] [] [String.mk ['-', c]] = .error s!"Unknown flag: -{c}") := by
  constructor
  · intro fl n hn hl
    unfold Flags.load
    rw [loadConfigFiles_noFs]
    simp only [applyEnvAll_nil]
    have hlc : alistLookup (clearIsSet fl.flags) n = none := by
      rw [alistLookup_clearIsSet, hl]
      rfl
    have s1 : parseArgsStep ⟨clearIsSet fl.flags, fl.shorthand_names, fl.positionals, "", false⟩
        ("--" ++ n) = .error s!"Unknown flag: --{n}" := by
      rw [parseArgsStep_long _ n rfl rfl hn]
      unfold longFlag
      simp only [hlc]
    unfold Flags.parse_args
    rw [parseArgsLoop_cons_error [] s1]
  · intro fl c hc hl
    unfold Flags.load
    rw [loadConfigFiles_noFs]
    simp only [applyEnvAll_nil]
    have s1 : parseArgsStep ⟨clearIsSet fl.flags, fl.shorthand_names, fl.positionals, "", false⟩
        (String.mk ['-', c]) = .error s!"Unknown flag: -{c}" := by
      rw [parseArgsStep_short _ c [] rfl rfl hc]
      exact parseShorthands_unknown _ c hl []
    unfold Flags.parse_args
    rw [parseArgsLoop_cons_error [] s1]

/-- C6 witness: `--nope` and `-z` on an empty registry. -/
theorem C6_witness :
    (Flags.load { } [] [] ["--nope"] = .error "Unknown flag: --nope")
    ∧ (Flags.load { } [] [] [String.mk ['-', 'z']] = .error "Unknown flag: -z") :=
  ⟨C6_unknown_flag_error.1 { } "nope" (by decide) (by decide),
   C6_unknown_flag_error.2 { } 'z' (by decide) (by decide)⟩

/-! ### JSON string-array coercion, computed exactly -/

theorem parseJsonArrayElems_str_go (name : String) :
    ∀ (zs : List String) (f : Flag) (w : List String) (i : Nat), f.value = .StringArray w →
      parseJsonArrayElems name f (zs.map Json.str) (i + 1) =
        ({ f with value := .StringArray (w ++ zs) }, none) := by
  intro zs
  induction zs with
  | nil =>
    intro f w i hv
    simp only [List.map_nil, parseJsonArrayElems]
    obtain ⟨nm, dv, val, sh, de, evd, ex, iss⟩ := f
    simp only at hv
    subst hv
    simp
  | cons z zs ih =>
    intro f w i hv
    simp only [List.map_cons, parseJsonArrayElems, hv]
    have hi : ((i + 1 : Nat) == 0) = false := by simp
    rw [hi]
    simp only [Bool.false_eq_true, if_false, ite_false]
    rw [ih { f with value := .StringArray (w ++ [z]) } (w ++ [z]) (i + 1) rfl]
    simp

theorem parseJsonArrayElems_str (name : String) (z : String) (zs : List String) (f : Flag)
    (w : List String) (hv : f.value = .StringArray w) :
    parseJsonArrayElems name f ((z :: zs).map Json.str) 0 =
      ({ f with value := .StringArray (z :: zs) }, none) := by
  simp only [List.map_cons, parseJsonArrayElems, hv]
  rw [show ((0 : Nat) == 0) = true from rfl]
  simp only [if_true, ite_true]
  rw [parseJsonArrayElems_str_go name zs { f with value := .StringArray [z] } [z] 0 rfl]
  simp

theorem parse_json_single_str_array (m : List (String × Flag)) (n : String) (f : Flag)
    (w : List String) (z : String) (zs : List String)
    (hl : alistLookup m n = some f) (hv : f.value = .StringArray w) :
    parse_json m (.obj [(n, .arr ((z :: zs).map Json.str))]) =
      (setFlag m n { f with value := .StringArray (z :: zs) }, none) := by
  unfold parse_json parse_json_obj
  simp only [hl]
  have harr : parseJsonValue n f (.arr ((z :: zs).map Json.str)) =
      ({ f with value := .StringArray (z :: zs) }, none) :=
    parseJsonArrayElems_str n z zs f w hv
  simp only [harr]
  rfl

/-! ### Claim C1 -/

def c1Flag : Flag :=
  { name := "arr", default_value := .StringArray ["d"], value := .StringArray ["d"] }

def c1Flags : Flags :=
  { flags := [("arr", c1Flag)], config_files := ["a.json", "b.json"] }

def c1Fs : List (String × Option Json) :=
  [("a.json", some (.obj [("arr", .arr [.str "1"])])),
   ("b.json", some (.obj [("arr", .arr [.str "2"])]))]

/-- C1 counterexample: two registered config files (both present and
valid JSON) set the same string-array flag; after phase 1 the flag
holds only the second file's array `["2"]`, not the concatenation
`["1", "2"]` the claim demands — `parse_json` resets the array at index
0 of each file's JSON array and never consults the `is_set` marker. -/
theorem C1_counterexample :
    (alistLookup (loadConfigFiles c1Flags.flags c1Flags.config_files c1Fs) "arr").map
        (fun f => f.value) = some (.StringArray ["2"])
    ∧ some (FlagValue.StringArray ["2"]) ≠ some (FlagValue.StringArray ["1", "2"]) :=
  ⟨rfl, by decide⟩

/-- C1 amended: when two registered config files both set the same
string-array flag with non-empty JSON arrays, the value after phase 1
is the **second** file's array alone — each file's JSON array replaces
the flag's array at its first element, so the later file overrides the
earlier one instead of appending to it. -/
theorem C1_second_file_overrides (m : List (String × Flag)) (n : String) (f : Flag)
    (w : List String) (x y : String) (xs ys : List String) (p₁ p₂ : String)
    (hl : alistLookup m n = some f) (hv : f.value = .StringArray w) (hp : p₁ ≠ p₂) :
    (alistLookup
        (loadConfigFiles m [p₁, p₂]
          [(p₁, some (.obj [(n, .arr ((x :: xs).map Json.str))])),
           (p₂, some (.obj [(n, .arr ((y :: ys).map Json.str))]))]) n).map (fun g => g.value)
      = some (.StringArray (y :: ys)) := by
  have hfs1 : alistLookup
      [(p₁, some (Json.obj [(n, .arr ((x :: xs).map Json.str))])),
       (p₂, some (Json.obj [(n, .arr ((y :: ys).map Json.str))]))] p₁ =
      some (some (Json.obj [(n, .arr ((x :: xs).map Json.str))])) := by
    rw [alistLookup, if_pos (beq_self_eq_true p₁)]
  have hfs2 : alistLookup
      [(p₁, some (Json.obj [(n, .arr ((x :: xs).map Json.str))])),
       (p₂, some (Json.obj [(n, .arr ((y :: ys).map Json.str))]))] p₂ =
      some (some (Json.obj [(n, .arr ((y :: ys).map Json.str))])) := by
    rw [alistLookup, if_neg (by simp [hp]), alistLookup, if_pos (beq_self_eq_true p₂)]
  rw [loadConfigFiles]
  simp only [hfs1]
  rw [parse_json_single_str_array m n f w x xs hl hv]
  rw [loadConfigFiles]
  simp only [hfs2]
  have hl₁ : alistLookup (setFlag m n { f with value := .StringArray (x :: xs) }) n =
      some { f with value := .StringArray (x :: xs) } :=
    alistLookup_setFlag_self _ hl
  rw [parse_json_single_str_array _ n { f with value := .StringArray (x :: xs) } (x :: xs)
      y ys hl₁ rfl]
  rw [loadConfigFiles]
  rw [alistLookup_setFlag_self _ hl₁]
  rfl

/-- C1 witness: the amended override behaviour at concrete inputs. -/
theorem C1_witness :
    (alistLookup
        (loadConfigFiles [("arr", c1Flag)] ["a.json", "b.json"]
          [("a.json", some (.obj [("arr", .arr (["1"].map Json.str))])),
           ("b.json", some (.obj [("arr", .arr (["2"].map Json.str))]))]) "arr").map
        (fun g => g.value) = some (.StringArray ["2"]) :=
  C1_second_file_overrides [("arr", c1Flag)] "arr" c1Flag ["d"] "1" "2" [] []
    "a.json" "b.json" (by decide) (by decide) (by decide)

/-! ### Claim C4 -/

theorem parseJsonArrayElems_str_num_go (name : String) (q : JNum) (rest : List Json) :
    ∀ (zs : List String) (f : Flag) (w : List String) (i : Nat), f.value = .StringArray w →
      parseJsonArrayElems name f (zs.map Json.str ++ Json.num q :: rest) (i + 1) =
        ({ f with value := .StringArray (w ++ zs) },
          some s!"Property {name} is not of type number[]!") := by
  intro zs
  induction zs with
  | nil =>
    intro f w i hv
    simp only [List.map_nil, List.nil_append, parseJsonArrayElems, hv]
    obtain ⟨nm, dv, val, sh, de, evd, ex, iss⟩ := f
    simp only at hv
    subst hv
    simp
  | cons z zs ih =>
    intro f w i hv
    simp only [List.map_cons, List.cons_append, parseJsonArrayElems, hv]
    have hi : ((i + 1 : Nat) == 0) = false := by simp
    rw [hi]
    simp only [Bool.false_eq_true, if_false, ite_false, List.append_eq]
    rw [ih { f with value := .StringArray (w ++ [z]) } (w ++ [z]) (i + 1) rfl]
    simp

/-- The fixture of the C4 counterexample: a string-array flag whose
prior value is `["d"]`. -/
def c4Flag : Flag :=
  { name := "f", default_value := .StringArray ["d"], value := .StringArray ["d"] }

/-- C4 counterexample: coercing the mixed JSON array `["a", 1]` into a
string-array flag does fail as a whole (an error is returned), but it
is **not** mutation-free: the flag's array, previously `["d"]`, has
been reset to `["a"]` by the time the mismatched element is reached. -/
theorem C4_counterexample :
    parse_json [("f", c4Flag)] (.obj [("f", .arr [.str "a", .num (.int 1)])]) =
      ([("f", { c4Flag with value := .StringArray ["a"] })],
        some "Property f is not of type number[]!")
    ∧ FlagValue.StringArray ["a"] ≠ FlagValue.StringArray ["d"] :=
  ⟨rfl, by decide⟩

/-- C4 amended: on a string-array flag, a JSON array consisting of
string elements followed by a number element fails with the
`not of type number[]` error, but the mutations already performed are
kept: the string prefix has replaced the flag's array (or the array is
left at its prior value when the mismatched element comes first), and
the elements after the failure are not processed. -/
theorem C4_partial_mutation (m : List (String × Flag)) (n : String) (f : Flag)
    (w : List String) (strs : List String) (q : JNum) (rest : List Json)
    (hl : alistLookup m n = some f) (hv : f.value = .StringArray w) :
    parse_json m (.obj [(n, .arr (strs.map Json.str ++ Json.num q :: rest))]) =
      (setFlag m n { f with value := .StringArray (if strs = [] then w else strs) },
        some s!"Property {n} is not of type number[]!") := by
  cases strs with
  | nil =>
    unfold parse_json parse_json_obj
    simp only [hl]
    have harr : parseJsonValue n f (.arr (([] : List String).map Json.str ++ Json.num q :: rest)) =
        (f, some s!"Property {n} is not of type number[]!") := by
      simp only [List.map_nil, List.nil_append, parseJsonValue, parseJsonArrayElems, hv]
    simp only [harr]
    simp only [ite_true]
    rw [← hv]
  | cons z zs =>
    unfold parse_json parse_json_obj
    simp only [hl]
    have harr : parseJsonValue n f (.arr ((z :: zs).map Json.str ++ Json.num q :: rest)) =
        ({ f with value := .StringArray (z :: zs) },
          some s!"Property {n} is not of type number[]!") := by
      simp only [List.map_cons, List.cons_append, parseJsonValue, parseJsonArrayElems, hv]
      rw [show ((0 : Nat) == 0) = true from rfl]
      simp only [if_true, ite_true, List.append_eq]
      rw [parseJsonArrayElems_str_num_go n q rest zs { f with value := .StringArray [z] } [z] 0
          rfl]
      simp
    simp only [harr]
    simp

/-- C4 witness: the amended partial-mutation behaviour at the concrete
counterexample input. -/
theorem C4_witness :
    parse_json [("f", c4Flag)] (.obj [("f", .arr (["a"].map Json.str ++ Json.num (.int 1) :: []))]) =
      (setFlag [("f", c4Flag)] "f"
          { c4Flag with value := .StringArray (if (["a"] : List String) = [] then ["d"] else ["a"]) },
        some "Property f is not of type number[]!") :=
  C4_partial_mutation [("f", c4Flag)] "f" c4Flag ["d"] ["a"] (.int 1) [] (by decide) (by decide)

/-! ### Claim C5 -/

def c5Alpha : Flag :=
  { name := "alpha", default_value := .String "a0", value := .String "a0",
    shorthand := some 'x' }

def c5Beta : Flag :=
  { name := "beta", default_value := .String "b0", value := .String "b0",
    shorthand := some 'y' }

def c5Flags : Flags :=
  { flags := [("alpha", c5Alpha), ("beta", c5Beta)],
    shorthand_names := [('x', "alpha"), ('y', "beta")] }

/-- C5 counterexample: in the cluster `-xy`, where both `x` and `y` are
shorthands of non-boolean (string) flags, the claim says the *first*
value-needing shorthand (`x`, flag `alpha`) consumes the next token and
clustering stops there; the code instead leaves `alpha` untouched and
gives the token to `y`'s flag `beta` — the loop keeps going and the
last non-boolean shorthand overwrites the pending state. -/
theorem C5_counterexample :
    (c5Flags.parse_args ["-xy", "v"]).map
        (fun fl => (fl.get_string "alpha", fl.get_string "beta")) =
      .ok (some "a0", some "v")
    ∧ (some "a0" : Option String) ≠ some "v" :=
  ⟨rfl, by decide⟩

/-- C5 amended: in a short-form cluster each character is still resolved
independently and boolean shorthands are set true on the spot, and an
unregistered character still fails with `Unknown flag: -c`; but the
cluster is processed to its end, each non-boolean shorthand overwrites
the pending awaiting-value state, so it is the **last** non-boolean
shorthand of the cluster that consumes the next whole token, and the
earlier non-boolean shorthands receive no value. -/
theorem C5_last_nonbool_wins :
    (∀ (fl : Flags) (b c₁ c₂ : Char) (nb n₁ n₂ : String) (fb f₁ f₂ : Flag) (bv : Bool)
        (v : String) (g : Flag),
      b ≠ '-' →
      alistLookup fl.shorthand_names b = some nb →
      alistLookup fl.shorthand_names c₁ = some n₁ →
      alistLookup fl.shorthand_names c₂ = some n₂ →
      alistLookup fl.flags nb = some fb → fb.value = .Bool bv →
      alistLookup fl.flags n₁ = some f₁ → (f₁.value).tag ≠ .Bool →
      alistLookup fl.flags n₂ = some f₂ → (f₂.value).tag ≠ .Bool →
      n₁ ≠ nb → n₂ ≠ nb → n₂ ≠ n₁ → n₂ ≠ "" →
      f₂.set_value_parsed v = .ok g →
      fl.parse_args [String.mk ['-', b, c₁, c₂], v] =
        .ok { fl with
              flags := setFlag (setFlag fl.flags nb { fb with value := .Bool true }) n₂ g }
      ∧ alistLookup (setFlag (setFlag fl.flags nb { fb with value := .Bool true }) n₂ g) n₁ =
          some f₁)
    ∧ (∀ (st : ParseState) (c : Char) (rest : List Char),
        alistLookup st.shorthand_names c = none →
        parseShorthands st (c :: rest) = .error s!"Unknown flag: -{c}") := by
  constructor
  · intro fl b c₁ c₂ nb n₁ n₂ fb f₁ f₂ bv v g hb hcb hc₁ hc₂ hnb hfb hn₁ hf₁ hn₂ hf₂
      h₁b h₂b h₂₁ hne hg
    have hl₁' : alistLookup (setFlag fl.flags nb { fb with value := .Bool true }) n₁ =
        some f₁ := by
      rw [alistLookup_setFlag_ne _ h₁b]
      exact hn₁
    have hl₂' : alistLookup (setFlag fl.flags nb { fb with value := .Bool true }) n₂ =
        some f₂ := by
      rw [alistLookup_setFlag_ne _ h₂b]
      exact hn₂
    refine ⟨?_, ?_⟩
    · have s1 : parseArgsStep ⟨fl.flags, fl.shorthand_names, fl.positionals, "", false⟩
          (String.mk ['-', b, c₁, c₂]) =
          .ok ⟨setFlag fl.flags nb { fb with value := .Bool true }, fl.shorthand_names,
               fl.positionals, n₂, false⟩ := by
        rw [parseArgsStep_short _ b [c₁, c₂] rfl rfl hb]
        rw [parseShorthands_bool_step _ b nb fb bv hcb hnb hfb]
        rw [parseShorthands_nonbool_step _ c₁ n₁ f₁ hc₁ hl₁' hf₁]
        rw [parseShorthands_nonbool_step _ c₂ n₂ f₂ hc₂ hl₂' hf₂]
        rfl
      have s2 : parseArgsStep ⟨setFlag fl.flags nb { fb with value := .Bool true },
          fl.shorthand_names, fl.positionals, n₂, false⟩ v =
          .ok ⟨setFlag (setFlag fl.flags nb { fb with value := .Bool true }) n₂ g,
               fl.shorthand_names, fl.positionals, "", false⟩ :=
        parseArgsStep_value_ok rfl hne hl₂' hg
      unfold Flags.parse_args
      rw [parseArgsLoop_cons_ok [v] s1, parseArgsLoop_cons_ok [] s2]
      rfl
    · rw [alistLookup_setFlag_ne g (Ne.symm h₂₁)]
      exact hl₁'
  · intro st c rest hc
    exact parseShorthands_unknown st c hc rest

def c5Bool : Flag :=
  { name := "verbose", default_value := .Bool false, value := .Bool false,
    shorthand := some 'b' }

def c5FlagsB : Flags :=
  { flags := [("verbose", c5Bool), ("alpha", c5Alpha), ("beta", c5Beta)],
    shorthand_names := [('b', "verbose"), ('x', "alpha"), ('y', "beta")] }

/-- C5 witness: the amended behaviour on the concrete cluster `-bxy`. -/
theorem C5_witness :
    c5FlagsB.parse_args [String.mk ['-', 'b', 'x', 'y'], "v"] =
      .ok { c5FlagsB with
            flags := setFlag (setFlag c5FlagsB.flags "verbose"
                { c5Bool with value := .Bool true }) "beta"
              { c5Beta with value := .String "v" } }
    ∧ alistLookup (setFlag (setFlag c5FlagsB.flags "verbose" { c5Bool with value := .Bool true })
          "beta" { c5Beta with value := .String "v" }) "alpha" = some c5Alpha :=
  C5_last_nonbool_wins.1 c5FlagsB 'b' 'x' 'y' "verbose" "alpha" "beta" c5Bool c5Alpha c5Beta
    false "v" { c5Beta with value := .String "v" } (by decide) (by decide) (by decide)
    (by decide) (by decide) (by decide) (by decide) (by decide) (by decide) (by decide)
    (by decide) (by decide) (by decide) (by decide) rfl

/-! ### Claim C2 -/

/-- Helper for C2: the string-array instance of the two-occurrence
argument run. -/
theorem loadStringArrayTwoArgs (fl : Flags) (n : String) (f : Flag) (d : List String)
    (v₁ v₂ : String) (hl : alistLookup fl.flags n = some f)
    (hv : f.value = .StringArray d) (hn : n ≠ "") :
    (fl.load [] [] ["--" ++ n, v₁, "--" ++ n, v₂]).map (fun fl' => fl'.get_string_array n) =
      .ok (some [v₁, v₂]) := by
  have hlc : alistLookup (clearIsSet fl.flags) n = some { f with is_set := false } := by
    rw [alistLookup_clearIsSet, hl]
    rfl
  have hf₁ : Flag.set_value_parsed { f with is_set := false } v₁ =
      .ok { f with value := .StringArray [v₁], is_set := true } := by
    rw [set_value_parsed_sa_reset { f with is_set := false } d v₁ hv rfl]
  have hl₁ : alistLookup (setFlag (clearIsSet fl.flags) n
      { f with value := .StringArray [v₁], is_set := true }) n =
      some { f with value := .StringArray [v₁], is_set := true } :=
    alistLookup_setFlag_self _ hlc
  have hf₂ : Flag.set_value_parsed { f with value := .StringArray [v₁], is_set := true } v₂ =
      .ok { f with value := .StringArray ([v₁] ++ [v₂]), is_set := true } := by
    rw [set_value_parsed_sa_append { f with value := .StringArray [v₁], is_set := true } [v₁]
        v₂ rfl rfl]
  have hl₂ : alistLookup (setFlag (setFlag (clearIsSet fl.flags) n
      { f with value := .StringArray [v₁], is_set := true }) n
      { f with value := .StringArray ([v₁] ++ [v₂]), is_set := true }) n =
      some { f with value := .StringArray ([v₁] ++ [v₂]), is_set := true } :=
    alistLookup_setFlag_self _ hl₁
  have s1 : parseArgsStep ⟨clearIsSet fl.flags, fl.shorthand_names, fl.positionals, "", false⟩
      ("--" ++ n) =
      .ok ⟨clearIsSet fl.flags, fl.shorthand_names, fl.positionals, n, false⟩ := by
    rw [parseArgsStep_long _ n rfl rfl hn]
    exact longFlag_nonbool _ n { f with is_set := false } hlc (by simp [hv, FlagValue.tag])
  have s2 : parseArgsStep ⟨clearIsSet fl.flags, fl.shorthand_names, fl.positionals, n, false⟩
      v₁ =
      .ok ⟨setFlag (clearIsSet fl.flags) n { f with value := .StringArray [v₁], is_set := true },
           fl.shorthand_names, fl.positionals, "", false⟩ :=
    parseArgsStep_value_ok rfl hn hlc hf₁
  have s3 : parseArgsStep ⟨setFlag (clearIsSet fl.flags) n
      { f with value := .StringArray [v₁], is_set := true },
      fl.shorthand_names, fl.positionals, "", false⟩ ("--" ++ n) =
      .ok ⟨setFlag (clearIsSet fl.flags) n { f with value := .StringArray [v₁], is_set := true },
           fl.shorthand_names, fl.positionals, n, false⟩ := by
    rw [parseArgsStep_long _ n rfl rfl hn]
    exact longFlag_nonbool _ n { f with value := .StringArray [v₁], is_set := true } hl₁
      (by simp [FlagValue.tag])
  have s4 : parseArgsStep ⟨setFlag (clearIsSet fl.flags) n
      { f with value := .StringArray [v₁], is_set := true },
      fl.shorthand_names, fl.positionals, n, false⟩ v₂ =
      .ok ⟨setFlag (setFlag (clearIsSet fl.flags) n
            { f with value := .StringArray [v₁], is_set := true }) n
            { f with value := .StringArray ([v₁] ++ [v₂]), is_set := true },
           fl.shorthand_names, fl.positionals, "", false⟩ :=
    parseArgsStep_value_ok rfl hn hl₁ hf₂
  unfold Flags.load
  rw [loadConfigFiles_noFs]
  simp only [applyEnvAll_nil]
  unfold Flags.parse_args
  rw [parseArgsLoop_cons_ok _ s1, parseArgsLoop_cons_ok _ s2, parseArgsLoop_cons_ok _ s3,
    parseArgsLoop_cons_ok _ s4]
  simp only [parseArgsLoop, Except.map, Flags.get_string_array]
  rw [hl₂]
  simp

/-- The first write of a phase to an `Int64Array` flag resets the
array to the single parsed element. -/
theorem set_value_parsed_ia_reset (f : Flag) (d : List Int) (v : String) (w : Int)
    (hv : f.value = .Int64Array d) (hp : parseI64 v = some w) (hset : f.is_set = false) :
    f.set_value_parsed v = .ok { f with value := .Int64Array [w], is_set := true } := by
  simp [Flag.set_value_parsed, hv, hp, Flag.append_values, FlagValue.tag, update_array, hset]

/-- A later write of the same phase to an `Int64Array` flag appends the
parsed element. -/
theorem set_value_parsed_ia_append (f : Flag) (d : List Int) (v : String) (w : Int)
    (hv : f.value = .Int64Array d) (hp : parseI64 v = some w) (hset : f.is_set = true) :
    f.set_value_parsed v = .ok { f with value := .Int64Array (d ++ [w]), is_set := true } := by
  simp [Flag.set_value_parsed, hv, hp, Flag.append_values, FlagValue.tag, update_array, hset]

/-- Helper for C2: the int64-array instance of the two-occurrence
argument run. -/
theorem loadInt64ArrayTwoArgs (fl : Flags) (n : String) (f : Flag) (d : List Int)
    (v₁ v₂ : String) (w₁ w₂ : Int) (hl : alistLookup fl.flags n = some f)
    (hv : f.value = .Int64Array d) (hn : n ≠ "")
    (hp₁ : parseI64 v₁ = some w₁) (hp₂ : parseI64 v₂ = some w₂) :
    (fl.load [] [] ["--" ++ n, v₁, "--" ++ n, v₂]).map (fun fl' => fl'.get_i64_array n) =
      .ok (some [w₁, w₂]) := by
  have hlc : alistLookup (clearIsSet fl.flags) n = some { f with is_set := false } := by
    rw [alistLookup_clearIsSet, hl]
    rfl
  have hf₁ : Flag.set_value_parsed { f with is_set := false } v₁ =
      .ok { f with value := .Int64Array [w₁], is_set := true } := by
    rw [set_value_parsed_ia_reset { f with is_set := false } d v₁ w₁ hv hp₁ rfl]
  have hl₁ : alistLookup (setFlag (clearIsSet fl.flags) n
      { f with value := .Int64Array [w₁], is_set := true }) n =
      some { f with value := .Int64Array [w₁], is_set := true } :=
    alistLookup_setFlag_self _ hlc
  have hf₂ : Flag.set_value_parsed { f with value := .Int64Array [w₁], is_set := true } v₂ =
      .ok { f with value := .Int64Array ([w₁] ++ [w₂]), is_set := true } := by
    rw [set_value_parsed_ia_append { f with value := .Int64Array [w₁], is_set := true } [w₁]
        v₂ w₂ rfl hp₂ rfl]
  have hl₂ : alistLookup (setFlag (setFlag (clearIsSet fl.flags) n
      { f with value := .Int64Array [w₁], is_set := true }) n
      { f with value := .Int64Array ([w₁] ++ [w₂]), is_set := true }) n =
      some { f with value := .Int64Array ([w₁] ++ [w₂]), is_set := true } :=
    alistLookup_setFlag_self _ hl₁
  have s1 : parseArgsStep ⟨clearIsSet fl.flags, fl.shorthand_names, fl.positionals, "", false⟩
      ("--" ++ n) =
      .ok ⟨clearIsSet fl.flags, fl.shorthand_names, fl.positionals, n, false⟩ := by
    rw [parseArgsStep_long _ n rfl rfl hn]
    exact longFlag_nonbool _ n { f with is_set := false } hlc (by simp [hv, FlagValue.tag])
  have s2 : parseArgsStep ⟨clearIsSet fl.flags, fl.shorthand_names, fl.positionals, n, false⟩
      v₁ =
      .ok ⟨setFlag (clearIsSet fl.flags) n { f with value := .Int64Array [w₁], is_set := true },
           fl.shorthand_names, fl.positionals, "", false⟩ :=
    parseArgsStep_value_ok rfl hn hlc hf₁
  have s3 : parseArgsStep ⟨setFlag (clearIsSet fl.flags) n
      { f with value := .Int64Array [w₁], is_set := true },
      fl.shorthand_names, fl.positionals, "", false⟩ ("--" ++ n) =
      .ok ⟨setFlag (clearIsSet fl.flags) n { f with value := .Int64Array [w₁], is_set := true },
           fl.shorthand_names, fl.positionals, n, false⟩ := by
    rw [parseArgsStep_long _ n rfl rfl hn]
    exact longFlag_nonbool _ n { f with value := .Int64Array [w₁], is_set := true } hl₁
      (by simp [FlagValue.tag])
  have s4 : parseArgsStep ⟨setFlag (clearIsSet fl.flags) n
      { f with value := .Int64Array [w₁], is_set := true },
      fl.shorthand_names, fl.positionals, n, false⟩ v₂ =
      .ok ⟨setFlag (setFlag (clearIsSet fl.flags) n
            { f with value := .Int64Array [w₁], is_set := true }) n
            { f with value := .Int64Array ([w₁] ++ [w₂]), is_set := true },
           fl.shorthand_names, fl.positionals, "", false⟩ :=
    parseArgsStep_value_ok rfl hn hl₁ hf₂
  unfold Flags.load
  rw [loadConfigFiles_noFs]
  simp only [applyEnvAll_nil]
  unfold Flags.parse_args
  rw [parseArgsLoop_cons_ok _ s1, parseArgsLoop_cons_ok _ s2, parseArgsLoop_cons_ok _ s3,
    parseArgsLoop_cons_ok _ s4]
  simp only [parseArgsLoop, Except.map, Flags.get_i64_array]
  rw [hl₂]
  simp

/-- C2: loading `["--name", v₁, "--name", v₂]` (no config files on
disk, empty environment) into a registry whose flag `name` is an array
leaves exactly the two parsed values in the flag, whatever non-empty
default (or earlier value) it held: the `is_set` markers are cleared
before the argument phase, so the first occurrence replaces the prior
array entirely and the second appends.  Stated for the string-array and
int64-array variants; the `i128`/`f64` array arms of
`set_value_parsed` are textually identical code paths. -/
theorem C2_args_reset_then_append :
    (∀ (fl : Flags) (n : String) (f : Flag) (d : List String) (v₁ v₂ : String),
      alistLookup fl.flags n = some f → f.value = .StringArray d → n ≠ "" →
      (fl.load [] [] ["--" ++ n, v₁, "--" ++ n, v₂]).map (fun fl' => fl'.get_string_array n) =
        .ok (some [v₁, v₂]))
    ∧ (∀ (fl : Flags) (n : String) (f : Flag) (d : List Int) (v₁ v₂ : String) (w₁ w₂ : Int),
      alistLookup fl.flags n = some f → f.value = .Int64Array d → n ≠ "" →
      parseI64 v₁ = some w₁ → parseI64 v₂ = some w₂ →
      (fl.load [] [] ["--" ++ n, v₁, "--" ++ n, v₂]).map (fun fl' => fl'.get_i64_array n) =
        .ok (some [w₁, w₂])) :=
  ⟨fun fl n f d v₁ v₂ hl hv hn => loadStringArrayTwoArgs fl n f d v₁ v₂ hl hv hn,
   fun fl n f d v₁ v₂ w₁ w₂ hl hv hn hp₁ hp₂ =>
     loadInt64ArrayTwoArgs fl n f d v₁ v₂ w₁ w₂ hl hv hn hp₁ hp₂⟩

/-- C2 witness: the concrete two-occurrence scenario over a non-empty
default. -/
theorem C2_witness :
    (Flags.load
        { flags := [("arr", { name := "arr", default_value := .StringArray ["d1", "d2"],
                              value := .StringArray ["d1", "d2"] })] }
        [] [] ["--" ++ "arr", "v1", "--" ++ "arr", "v2"]).map
      (fun fl' => fl'.get_string_array "arr") = .ok (some ["v1", "v2"]) :=
  C2_args_reset_then_append.1
    { flags := [("arr", { name := "arr", default_value := .StringArray ["d1", "d2"],
                          value := .StringArray ["d1", "d2"] })] }
    "arr" { name := "arr", default_value := .StringArray ["d1", "d2"],
            value := .StringArray ["d1", "d2"] }
    ["d1", "d2"] "v1" "v2" (by decide) (by decide) (by decide)

/-! ### Claim C3 -/

theorem tag_bool_exists {v : FlagValue} (h : v.tag = .Bool) : ∃ b, v = .Bool b := by
  cases v <;>
    first
    | exact ⟨_, rfl⟩
    | simp [FlagValue.tag] at h

/-- C3: phases run in fixed order (config files, then environment, then
arguments) and for a scalar flag the last phase wins.  First conjunct:
for a value-taking (non-boolean, non-array) scalar flag whose config
file and environment variable both target it, a successful `load` ends
with exactly the value parsed from the command-line token — the
argument phase overwrites the scalar wholesale, independently of what
the earlier phases wrote.  Second conjunct: for a boolean flag the
command-line occurrence `--name` leaves the flag `true`, whatever the
file and environment wrote. -/
theorem C3_last_phase_wins :
    (∀ (fl : Flags) (p n : String) (f : Flag) (jv : Json) (b c : String) (fl' : Flags),
      alistLookup fl.flags n = some f →
      tagIsArray ((f.value).tag) = false → (f.value).tag ≠ .Bool →
      tagIsArray ((f.default_value).tag) = false →
      n ≠ "" → fl.config_files = [p] →
      fl.load [(p, some (.obj [(n, jv)]))] [(f.get_env_var_name, b)] ["--" ++ n, c] = .ok fl' →
      (alistLookup fl'.flags n).map (fun g => g.value) =
        (f.set_value_parsed c).toOption.map (fun g => g.value))
    ∧ (∀ (fl : Flags) (p n : String) (f : Flag) (jv : Json) (b : String) (fl' : Flags)
        (bv : Bool),
      alistLookup fl.flags n = some f → f.value = .Bool bv →
      tagIsArray ((f.default_value).tag) = false →
      n ≠ "" → fl.config_files = [p] →
      fl.load [(p, some (.obj [(n, jv)]))] [(f.get_env_var_name, b)] ["--" ++ n] = .ok fl' →
      fl'.get_bool n = some true) := by
  constructor
  · intro fl p n f jv b c fl' hl hsc hnb hscd hn hcf hload
    simp only [Flags.load] at hload
    rw [hcf] at hload
    have hfs : loadConfigFiles fl.flags [p] [(p, some (.obj [(n, jv)]))] =
        (parse_json fl.flags (.obj [(n, jv)])).1 := by
      simp [loadConfigFiles, alistLookup]
    rw [hfs] at hload
    rcases henv : applyEnvAll (parse_json fl.flags (.obj [(n, jv)])).1
        [(f.get_env_var_name, b)] with e | m₂
    · rw [henv] at hload
      exact Except.noConfusion hload
    · rw [henv] at hload
      obtain ⟨f₁, hl₁, hs₁⟩ := mapRel_lookup (parse_json_shape fl.flags (.obj [(n, jv)])) hl
      obtain ⟨f₂, hl₂, he₂⟩ := mapRel_lookup (applyEnvAll_rel henv) hl₁
      have hs₂ : FlagShape f₁ f₂ := applyEnvToFlag_shape he₂
      have hname₂ : f₂.name = f.name := hs₂.1.trans hs₁.1
      have htag₂ : (f₂.value).tag = (f.value).tag := hs₂.2.2.trans hs₁.2.2
      have hlc : alistLookup (clearIsSet m₂) n = some { f₂ with is_set := false } := by
        rw [alistLookup_clearIsSet, hl₂]
        rfl
      have s1 : parseArgsStep ⟨clearIsSet m₂, fl.shorthand_names, fl.positionals, "", false⟩
          ("--" ++ n) =
          .ok ⟨clearIsSet m₂, fl.shorthand_names, fl.positionals, n, false⟩ := by
        rw [parseArgsStep_long _ n rfl rfl hn]
        exact longFlag_nonbool _ n { f₂ with is_set := false } hlc
          (fun h => hnb (htag₂ ▸ h))
      simp only [Flags.parse_args] at hload
      rcases hsvp : Flag.set_value_parsed { f₂ with is_set := false } c with e | g
      · have s2 : parseArgsStep ⟨clearIsSet m₂, fl.shorthand_names, fl.positionals, n, false⟩
            c = .error e :=
          parseArgsStep_value_error rfl hn hlc hsvp
        rw [parseArgsLoop_cons_ok [c] s1, parseArgsLoop_cons_error [] s2] at hload
        exact Except.noConfusion hload
      · have s2 : parseArgsStep ⟨clearIsSet m₂, fl.shorthand_names, fl.positionals, n, false⟩
            c =
            .ok ⟨setFlag (clearIsSet m₂) n g, fl.shorthand_names, fl.positionals, "", false⟩ :=
          parseArgsStep_value_ok rfl hn hlc hsvp
        rw [parseArgsLoop_cons_ok [c] s1, parseArgsLoop_cons_ok [] s2] at hload
        simp only [parseArgsLoop, Except.ok.injEq] at hload
        subst hload
        have hfin : alistLookup (setFlag (clearIsSet m₂) n g) n = some g :=
          alistLookup_setFlag_self _ hlc
        show (alistLookup (setFlag (clearIsSet m₂) n g) n).map (fun g => g.value) = _
        rw [hfin]
        have hdet := set_value_parsed_scalar_det (f := f) (g := { f₂ with is_set := false }) c
          hname₂ htag₂ hsc
        rw [hsvp] at hdet
        rcases hfc : f.set_value_parsed c with e | y
        · rw [hfc] at hdet
          simp [Except.map] at hdet
        · rw [hfc] at hdet
          simp only [Except.map, Except.ok.injEq] at hdet
          simp [Except.toOption, hdet]
  · intro fl p n f jv b fl' bv hl hv hscd hn hcf hload
    simp only [Flags.load] at hload
    rw [hcf] at hload
    have hfs : loadConfigFiles fl.flags [p] [(p, some (.obj [(n, jv)]))] =
        (parse_json fl.flags (.obj [(n, jv)])).1 := by
      simp [loadConfigFiles, alistLookup]
    rw [hfs] at hload
    rcases henv : applyEnvAll (parse_json fl.flags (.obj [(n, jv)])).1
        [(f.get_env_var_name, b)] with e | m₂
    · rw [henv] at hload
      exact Except.noConfusion hload
    · rw [henv] at hload
      obtain ⟨f₁, hl₁, hs₁⟩ := mapRel_lookup (parse_json_shape fl.flags (.obj [(n, jv)])) hl
      obtain ⟨f₂, hl₂, he₂⟩ := mapRel_lookup (applyEnvAll_rel henv) hl₁
      have hs₂ : FlagShape f₁ f₂ := applyEnvToFlag_shape he₂
      have htag₂ : (f₂.value).tag = Tag.Bool := by
        rw [hs₂.2.2.trans hs₁.2.2, hv]
        rfl
      obtain ⟨bv₂, hbv₂⟩ := tag_bool_exists htag₂
      have hlc : alistLookup (clearIsSet m₂) n = some { f₂ with is_set := false } := by
        rw [alistLookup_clearIsSet, hl₂]
        rfl
      have s1 : parseArgsStep ⟨clearIsSet m₂, fl.shorthand_names, fl.positionals, "", false⟩
          ("--" ++ n) =
          .ok ⟨setFlag (clearIsSet m₂) n { f₂ with value := .Bool true, is_set := false },
               fl.shorthand_names, fl.positionals, "", false⟩ := by
        rw [parseArgsStep_long _ n rfl rfl hn]
        exact longFlag_bool _ n { f₂ with is_set := false } bv₂ hlc hbv₂
      simp only [Flags.parse_args] at hload
      rw [parseArgsLoop_cons_ok [] s1] at hload
      simp only [parseArgsLoop, Except.ok.injEq] at hload
      subst hload
      have hfin : alistLookup (setFlag (clearIsSet m₂) n
          { f₂ with value := .Bool true, is_set := false }) n =
          some { f₂ with value := .Bool true, is_set := false } :=
        alistLookup_setFlag_self _ hlc
      simp only [Flags.get_bool, hfin]

def c3Host : Flag :=
  { name := "host", default_value := .String "h0", value := .String "h0" }

def c3Flags : Flags :=
  { flags := [("host", c3Host)], config_files := ["cfg"] }

/-- C3 witness: config file, environment variable and argument all set
the string flag `host`; the final value is the argument's. -/
theorem C3_witness :
    (alistLookup
        (({ c3Flags with
            flags := setFlag
              (clearIsSet [("host", { c3Host with value := .String "fromenv" })]) "host"
              { c3Host with value := .String "fromargs" },
            positionals := [] } : Flags)).flags "host").map (fun g => g.value) =
      (c3Host.set_value_parsed "fromargs").toOption.map (fun g => g.value) :=
  C3_last_phase_wins.1 c3Flags "cfg" "host" c3Host (.str "fromfile") "fromenv" "fromargs"
    { c3Flags with
      flags := setFlag
        (clearIsSet [("host", { c3Host with value := .String "fromenv" })]) "host"
        { c3Host with value := .String "fromargs" },
      positionals := [] }
    (by decide) (by decide) (by decide) (by decide) (by decide) rfl rfl

/-! ### Claim C9 -/

/-- C9: the variant tag of a flag's current value always equals the
variant tag of its default, fixed at construction: `Flag::new`
establishes the invariant; `set_value` rejects any write whose
discriminant differs and otherwise keeps the tag; `set_value_parsed`
keeps the tag; and both JSON coercion and a whole `load` (environment
parsing, argument parsing included) preserve the invariant for every
registered flag. -/
theorem C9_variant_tag_invariant :
    (∀ (n : String) (dv : FlagValue) (f : Flag),
        Flag.new n dv = .ok f → (f.value).tag = (f.default_value).tag)
    ∧ (∀ (f : Flag) (v : FlagValue), (v.tag ≠ (f.value).tag →
        ∃ e, f.set_value v = .error e)
        ∧ ∀ g, f.set_value v = .ok g → (g.value).tag = (f.value).tag)
    ∧ (∀ (f : Flag) (s : String) (g : Flag),
        f.set_value_parsed s = .ok g → (g.value).tag = (f.value).tag)
    ∧ (∀ (m : List (String × Flag)) (j : Json), flagsOk m → flagsOk (parse_json m j).1)
    ∧ (∀ (fl : Flags) (args : List String) (fl' : Flags), flagsOk fl.flags →
        fl.parse_args args = .ok fl' → flagsOk fl'.flags)
    ∧ (∀ (fl : Flags) (fs : List (String × Option Json)) (env_vars : List (String × String))
        (args : List String) (fl' : Flags), flagsOk fl.flags →
        fl.load fs env_vars args = .ok fl' → flagsOk fl'.flags) := by
  refine ⟨?_, ?_, ?_, ?_, ?_, ?_⟩
  · intro n dv f h
    unfold Flag.new at h
    split at h
    · simp only [Except.ok.injEq] at h
      subst h
      rfl
    · exact Except.noConfusion h
  · intro f v
    constructor
    · intro hne
      unfold Flag.set_value
      rw [if_neg hne]
      exact ⟨_, rfl⟩
    · intro g h
      unfold Flag.set_value at h
      split at h
      · simp only [Except.ok.injEq] at h
        subst h
        assumption
      · exact Except.noConfusion h
  · intro f s g h
    exact (set_value_parsed_shape h).2.2
  · intro m j hok
    exact mapShape_flagsOk (parse_json_shape m j) hok
  · intro fl args fl' hok h
    exact mapShape_flagsOk (parse_args_shape h).1 hok
  · intro fl fs env_vars args fl' hok h
    exact mapShape_flagsOk (load_shape h).1 hok

/-- C9 witness: a full `load` call over a two-flag registry preserves
the invariant. -/
theorem C9_witness :
    flagsOk
      [("b", { name := "b", default_value := FlagValue.Bool false,
               value := FlagValue.Bool true, is_set := false }),
       ("s", { name := "s", default_value := FlagValue.StringArray [],
               value := FlagValue.StringArray ["x"], is_set := true })] :=
  C9_variant_tag_invariant.2.2.2.2.2
    { flags := [("b", { name := "b", default_value := FlagValue.Bool false,
                        value := FlagValue.Bool false }),
                ("s", { name := "s", default_value := FlagValue.StringArray [],
                        value := FlagValue.StringArray [] })] }
    [] [] ["--b", "--s", "x"]
    { flags := [("b", { name := "b", default_value := FlagValue.Bool false,
                        value := FlagValue.Bool true, is_set := false }),
                ("s", { name := "s", default_value := FlagValue.StringArray [],
                        value := FlagValue.StringArray ["x"], is_set := true })] }
    (by unfold flagsOk; decide) rfl

end Cliconf
